import Mathlib

/-!
Wii Nunchuk quake sensor: acquisition cycle, filters and report generator.

A shallow embedding of the firmware under `uc_code/`:

* `mega32u4_hard-i2c_moving_average/nunchuk_quake_sensor.{c,h}` (namespace `MovingAverage`),
* `mega32u4_hard-i2c_no_filter/nunchuk_quake_sensor.c` (namespace `NoFilter`).

Bytes read from the bus are `uint8_t` and are modelled as `Fin 256`; every C expression is
evaluated on `Nat` after integer promotion (`.val`), and a value stored into a `uint8_t` or
`uint16_t` object is truncated explicitly with `u8` / `u16`.  The target is an 8-bit AVR, where
`int` is 16 bits wide.
-/

namespace NunchukQuakeSensor

/-! ## Machine integers -/

/-- Truncation of a value stored into a `uint8_t` object. -/
def u8 (v : Nat) : Nat := v % 256

/-- Truncation of a value stored into a `uint16_t` object (also a 16-bit `unsigned int`). -/
def u16 (v : Nat) : Nat := v % 65536

/-- Bitwise complement `~v` of a 16-bit pattern. -/
def not16 (v : Nat) : Nat := 65535 - u16 v

/-- The mask `~(~0 << 2)` used by the unpacking expressions, evaluated on 16-bit patterns. -/
def mask2 : Nat := not16 (u16 (not16 0 <<< 2))

/-- The macro `_BV(n)`, that is `1 << n`. -/
def BV (n : Nat) : Nat := 1 <<< n

/-! ## Constants of `nunchuk_quake_sensor.h` -/

/-- The configured `#define M  8`, the number of samples to average. -/
def M : Nat := 8

/-- The constant `#define NUM_BYTES 6`. -/
def NUM_BYTES : Nat := 6

/-- The constant `#define DevAddr  0xA4`. -/
def DevAddr : Nat := 0xA4

/-- The macro `LOG2F(x)`: six comparisons against 2, 4, 8, 16, 32 and 64, added up. -/
def LOG2F (x : Nat) : Nat :=
  (if x ≥ 2 then 1 else 0) +
  (if x ≥ 4 then 1 else 0) +
  (if x ≥ 8 then 1 else 0) +
  (if x ≥ 16 then 1 else 0) +
  (if x ≥ 32 then 1 else 0) +
  (if x ≥ 64 then 1 else 0)

/-! ## Frames -/

/-- The six bytes `nc_data[0..5]` read from the nunchuk in one bus transaction; field `bk` is
`nc_data[k]`. -/
structure Frame where
  b0 : Fin 256
  b1 : Fin 256
  b2 : Fin 256
  b3 : Fin 256
  b4 : Fin 256
  b5 : Fin 256
deriving DecidableEq

/-- The spike test of the acquisition cycle: `nc_data[4] == 0xFE && nc_data[5] == 0xFE`. -/
def Frame.spike (f : Frame) : Prop := f.b4 = 0xFE ∧ f.b5 = 0xFE

instance (f : Frame) : Decidable f.spike := by
  unfold Frame.spike; infer_instance

/-- The combination `(hi << 2) | lo` of a high byte with a two-bit field. -/
def join10 (hi lo : Nat) : Nat := (hi <<< 2) ||| lo

/-- The x field `(nc_data[5] >> 2) & ~(~0 << 2)` of byte 5. -/
def field_x (f : Frame) : Nat := (f.b5.val >>> 2) &&& mask2

/-- The y field `(nc_data[5] >> 4) & ~(~0 << 2)` of byte 5. -/
def field_y (f : Frame) : Nat := (f.b5.val >>> 4) &&& mask2

/-- The z field `(nc_data[5] >> 6) & ~(~0 << 2)` of byte 5. -/
def field_z (f : Frame) : Nat := (f.b5.val >>> 6) &&& mask2

/-- The right-hand side `(nc_data[2] << 2) | ((nc_data[5] >> 2) & ~(~0 << 2))`. -/
def unpack_x (f : Frame) : Nat := join10 f.b2.val (field_x f)

/-- The right-hand side `(nc_data[3] << 2) | ((nc_data[5] >> 4) & ~(~0 << 2))`. -/
def unpack_y (f : Frame) : Nat := join10 f.b3.val (field_y f)

/-- The right-hand side `(nc_data[4] << 2) | ((nc_data[5] >> 6) & ~(~0 << 2))`. -/
def unpack_z (f : Frame) : Nat := join10 f.b4.val (field_z f)

/-- The report structure `USB_JoystickReport_Data_t`. -/
structure USB_JoystickReport_Data_t where
  ax : Nat
  ay : Nat
  az : Nat
  buttons : Nat
deriving DecidableEq

/-- The value of `sizeof(USB_JoystickReport_Data_t)`: three `uint16_t` and one `uint8_t`. -/
def sizeof_USB_JoystickReport_Data_t : Nat := 2 + 2 + 2 + 1

/-- What `CALLBACK_HID_Device_CreateHIDReport` hands back: the filled report, `*ReportSize`
and the returned boolean. -/
structure HIDReportResult where
  JoystickReport : USB_JoystickReport_Data_t
  ReportSize : Nat
  ret : Bool
deriving DecidableEq

/-! ## Moving-average variant -/

namespace MovingAverage

/-- The statics of the moving-average firmware: the write cursor `cbi` of the interrupt
routine and the three sample buffers. -/
structure State where
  cbi : Nat
  buff_x : List Nat
  buff_y : List Nat
  buff_z : List Nat
deriving DecidableEq

/-- Zero-initialised statics for a buffer depth. -/
def init (depth : Nat) : State :=
  { cbi := 0
    buff_x := List.replicate depth 0
    buff_y := List.replicate depth 0
    buff_z := List.replicate depth 0 }

/-- The macro `next_cbi()`: `(cbi == (M-1)) ? 0 : cbi+1`, stored back into the `uint8_t`
cursor. -/
def next_cbi (depth cbi : Nat) : Nat := u8 (if cbi = depth - 1 then 0 else cbi + 1)

/-- The buffer part of `ISR(TIMER1_COMPA_vect)`: one acquisition cycle on the frame that was
read. -/
def ISR (depth : Nat) (s : State) (nc_data : Frame) : State :=
  let i := s.cbi
  let cbi := next_cbi depth s.cbi
  if ¬ (nc_data.b4 = 0xFE ∧ nc_data.b5 = 0xFE) then
    { cbi := cbi
      buff_x := s.buff_x.set cbi (u16 (unpack_x nc_data))
      buff_y := s.buff_y.set cbi (u16 (unpack_y nc_data))
      buff_z := s.buff_z.set cbi (u16 (unpack_z nc_data)) }
  else
    { cbi := cbi
      buff_x := s.buff_x.set cbi (s.buff_x.getD i 0)
      buff_y := s.buff_y.set cbi (s.buff_y.getD i 0)
      buff_z := s.buff_z.set cbi (s.buff_z.getD i 0) }

/-- The acquisition cycles of a sequence of frames, oldest first. -/
def run (depth : Nat) (s : State) (frames : List Frame) : State :=
  frames.foldl (ISR depth) s

/-- The local accumulators `sum_x`, `sum_y`, `sum_z` of the report generator. -/
structure Sums where
  sum_x : Nat
  sum_y : Nat
  sum_z : Nat
deriving DecidableEq

/-- Body of the summation loop for index `i`, in 16-bit unsigned arithmetic. -/
def sumBody (s : State) (acc : Sums) (i : Nat) : Sums :=
  { sum_x := u16 (acc.sum_x + s.buff_x.getD i 0)
    sum_y := u16 (acc.sum_y + s.buff_y.getD i 0)
    sum_z := u16 (acc.sum_z + s.buff_z.getD i 0) }

/-- The loop `for (i=0; i<M; i++)` of the report generator. -/
def sumLoop (depth : Nat) (s : State) : Sums :=
  (List.range depth).foldl (sumBody s) ⟨0, 0, 0⟩

/-- The rounding expression `(sum + _BV(LOG2F(M)-1)) >> LOG2F(M)` on a 16-bit unsigned sum,
stored into a `uint16_t` field. -/
def roundShift (depth sum : Nat) : Nat :=
  u16 (u16 (sum + BV (LOG2F depth - 1)) >>> LOG2F depth)

/-- The function `CALLBACK_HID_Device_CreateHIDReport` of the moving-average variant. -/
def CALLBACK_HID_Device_CreateHIDReport (depth : Nat) (s : State) : HIDReportResult :=
  let sums := sumLoop depth s
  { JoystickReport :=
      { ax := roundShift depth sums.sum_x
        ay := roundShift depth sums.sum_y
        az := roundShift depth sums.sum_z
        buttons := 0 }
    ReportSize := sizeof_USB_JoystickReport_Data_t
    ret := true }

end MovingAverage

/-! ## Passthrough variant -/

namespace NoFilter

/-- The statics of the passthrough firmware: one stored value per axis. -/
structure State where
  buff_x : Nat
  buff_y : Nat
  buff_z : Nat
deriving DecidableEq

/-- Zero-initialised statics. -/
def init : State := { buff_x := 0, buff_y := 0, buff_z := 0 }

/-- The buffer part of `ISR(TIMER1_COMPA_vect)` of the passthrough variant. -/
def ISR (s : State) (nc_data : Frame) : State :=
  if ¬ (nc_data.b4 = 0xFE ∧ nc_data.b5 = 0xFE) then
    { buff_x := u16 (unpack_x nc_data)
      buff_y := u16 (unpack_y nc_data)
      buff_z := u16 (unpack_z nc_data) }
  else
    s

/-- The acquisition cycles of a sequence of frames, oldest first. -/
def run (s : State) (frames : List Frame) : State :=
  frames.foldl ISR s

/-- The function `CALLBACK_HID_Device_CreateHIDReport` of the passthrough variant. -/
def CALLBACK_HID_Device_CreateHIDReport (s : State) : HIDReportResult :=
  { JoystickReport :=
      { ax := s.buff_x
        ay := s.buff_y
        az := s.buff_z
        buttons := 0 }
    ReportSize := sizeof_USB_JoystickReport_Data_t
    ret := true }

end NoFilter

/-! ## Device identification -/

/-- The return value of `Nunchuk_Init` for the six identification bytes read back. -/
def Nunchuk_Init (nc_data : Frame) : Nat :=
  let i :=
    if nc_data.b2 = 0x9A ∧ nc_data.b3 = 0x1E ∧ nc_data.b4 = 0xFE ∧ nc_data.b5 = 0xFE then 1
    else 0
  u8 i

/-! ## Specification-side notions used by the theorems -/

namespace MovingAverage

/-- Well-formed statics for a depth: the cursor indexes a slot and each buffer has `depth`
slots. -/
def WF (depth : Nat) (s : State) : Prop :=
  s.cbi < depth ∧ s.buff_x.length = depth ∧ s.buff_y.length = depth ∧ s.buff_z.length = depth

instance (depth : Nat) (s : State) : Decidable (WF depth s) := by
  unfold WF; infer_instance

/-- Every entry of every buffer is a 10-bit value. -/
def Bounded (s : State) : Prop :=
  (∀ a ∈ s.buff_x, a ≤ 1023) ∧ (∀ a ∈ s.buff_y, a ≤ 1023) ∧ (∀ a ∈ s.buff_z, a ≤ 1023)

instance (s : State) : Decidable (Bounded s) := by
  unfold Bounded; infer_instance

/-- A frame that is not a spike and unpacks to three given 10-bit values. -/
def frameOf (x y z : Nat) : Frame :=
  { b0 := 0
    b1 := 0
    b2 := ⟨x / 4 % 256, Nat.mod_lt _ (by decide)⟩
    b3 := ⟨y / 4 % 256, Nat.mod_lt _ (by decide)⟩
    b4 := ⟨z / 4 % 256, Nat.mod_lt _ (by decide)⟩
    b5 := ⟨(4 * (x % 4) + 16 * (y % 4) + 64 * (z % 4)) % 256, Nat.mod_lt _ (by decide)⟩ }

/-- One axis of the acquisition cycle, as a cursor and one buffer: the slot at the advanced
cursor receives the unpacked value, or the value at the old cursor when the frame is a
spike. -/
def ringStep (depth : Nat) (val : Frame → Nat) (r : Nat × List Nat) (f : Frame) :
    Nat × List Nat :=
  (next_cbi depth r.1,
    r.2.set (next_cbi depth r.1) (if f.spike then r.2.getD r.1 0 else u16 (val f)))

/-- The slots of a ring in chronological order, oldest first: the slot after the cursor comes
first and the slot at the cursor last. -/
def window (r : Nat × List Nat) : List Nat := r.2.rotate (r.1 + 1)

/-- The valid-or-carried samples of a frame sequence: a spike repeats the sample before it,
`prev` standing for the sample before the first frame. -/
def carried (val : Frame → Nat) : Nat → List Frame → List Nat
  | _, [] => []
  | prev, f :: fs =>
    (if f.spike then prev else val f) :: carried val (if f.spike then prev else val f) fs

end MovingAverage

/-! ## Interleaving of the report generator with the timer interrupt -/

namespace MovingAverage

/-- What can happen next while `CALLBACK_HID_Device_CreateHIDReport` is running: the main
context executes its next step, or the timer compare interrupt is raised with the frame its
acquisition cycle would read. -/
inductive Event where
  | main : Event
  | irq : Frame → Event
deriving DecidableEq

/-- The processor while the report generator runs: the statics shared with the interrupt
routine, the global interrupt enable flag `I`, the control point `pc` of the generator, its
local accumulators and the report once it has returned.  With `M` the depth, `pc = 0` is
before `cli()`, `pc = 1 + n` for `n < 3*M` is before the `n`-th buffer read of the loop
(`buff_x[i]`, `buff_y[i]`, `buff_z[i]` for `i = n / 3`, in this order), `pc = 1 + 3*M` is
before `sei()`, `pc = 2 + 3*M` is before the three rounding shifts and `pc = 3 + 3*M` is
after the return. -/
structure Machine where
  statics : State
  I : Bool
  pc : Nat
  sums : Sums
  result : Option HIDReportResult
deriving DecidableEq

/-- Entry into the report generator from the main loop, where interrupts are enabled: the
accumulators have been initialised to zero. -/
def enter (s : State) : Machine :=
  { statics := s, I := true, pc := 0, sums := ⟨0, 0, 0⟩, result := none }

/-- The `n`-th buffer read of the summation loop: one of the three statements of the loop
body for `i = n / 3`. -/
def readStep (s : State) (acc : Sums) (n : Nat) : Sums :=
  if n % 3 = 0 then { acc with sum_x := u16 (acc.sum_x + s.buff_x.getD (n / 3) 0) }
  else if n % 3 = 1 then { acc with sum_y := u16 (acc.sum_y + s.buff_y.getD (n / 3) 0) }
  else { acc with sum_z := u16 (acc.sum_z + s.buff_z.getD (n / 3) 0) }

/-- One step of the report generator in the main context. -/
def stepMain (depth : Nat) (m : Machine) : Machine :=
  if m.pc = 0 then
    { m with I := false, pc := 1 }
  else if m.pc < 1 + 3 * depth then
    { m with sums := readStep m.statics m.sums (m.pc - 1), pc := m.pc + 1 }
  else if m.pc = 1 + 3 * depth then
    { m with I := true, pc := m.pc + 1 }
  else if m.pc = 2 + 3 * depth then
    { m with
      result := some
        { JoystickReport :=
            { ax := roundShift depth m.sums.sum_x
              ay := roundShift depth m.sums.sum_y
              az := roundShift depth m.sums.sum_z
              buttons := 0 }
          ReportSize := sizeof_USB_JoystickReport_Data_t
          ret := true }
      pc := m.pc + 1 }
  else m

/-- One event: a main step, or a timer interrupt, which runs a whole acquisition cycle when
interrupts are enabled and stays pending (no effect on the statics) when they are
disabled. -/
def step (depth : Nat) (m : Machine) : Event → Machine
  | Event.main => stepMain depth m
  | Event.irq f => if m.I then { m with statics := ISR depth m.statics f } else m

/-- The machine after a sequence of events. -/
def exec (depth : Nat) (m : Machine) (events : List Event) : Machine :=
  events.foldl (step depth) m

/-- The reading phases of a report generation that took its snapshot `snap` at `cli()`:
inside the critical section, between `sei()` and the rounding, and after the return. -/
def Phase (depth : Nat) (snap : State) (m : Machine) : Prop :=
  (1 ≤ m.pc ∧ m.pc ≤ 1 + 3 * depth ∧ m.I = false ∧ m.statics = snap ∧
    m.sums = (List.range (m.pc - 1)).foldl (readStep snap) ⟨0, 0, 0⟩ ∧ m.result = none) ∨
  (m.pc = 2 + 3 * depth ∧ m.sums = sumLoop depth snap ∧ m.result = none) ∨
  (m.pc = 3 + 3 * depth ∧
    m.result = some (CALLBACK_HID_Device_CreateHIDReport depth snap))

end MovingAverage

/-! ## Interleaving of the passthrough report generator with the timer interrupt -/

namespace NoFilter

/-- What can happen next while the passthrough `CALLBACK_HID_Device_CreateHIDReport` is
running: the main context executes its next statement, or the timer compare interrupt is
raised with the frame its acquisition cycle would read. -/
inductive Event where
  | main : Event
  | irq : Frame → Event
deriving DecidableEq

/-- The processor while the passthrough report generator runs: the statics shared with the
interrupt routine, the global interrupt enable flag `I`, the control point `pc` of the
generator, the report structure being filled and the result once it has returned.
`pc = 0`, `1`, `2` are before `JoystickReport->ax = buff_x`, `->ay = buff_y` and
`->az = buff_z`, `pc = 3` is before the stores of `buttons` and `*ReportSize` and the
return, `pc = 4` is after the return.  The function contains no `cli()` and no `sei()`. -/
structure Machine where
  statics : State
  I : Bool
  pc : Nat
  JoystickReport : USB_JoystickReport_Data_t
  result : Option HIDReportResult
deriving DecidableEq

/-- Entry into the report generator from the main loop, where interrupts are enabled, with a
cleared report buffer. -/
def enter (s : State) : Machine :=
  { statics := s, I := true, pc := 0, JoystickReport := ⟨0, 0, 0, 0⟩, result := none }

/-- One statement of the passthrough report generator in the main context. -/
def stepMain (m : Machine) : Machine :=
  if m.pc = 0 then
    { m with JoystickReport := { m.JoystickReport with ax := m.statics.buff_x }, pc := 1 }
  else if m.pc = 1 then
    { m with JoystickReport := { m.JoystickReport with ay := m.statics.buff_y }, pc := 2 }
  else if m.pc = 2 then
    { m with JoystickReport := { m.JoystickReport with az := m.statics.buff_z }, pc := 3 }
  else if m.pc = 3 then
    { m with
      JoystickReport := { m.JoystickReport with buttons := 0 }
      result := some
        { JoystickReport := { m.JoystickReport with buttons := 0 }
          ReportSize := sizeof_USB_JoystickReport_Data_t
          ret := true }
      pc := 4 }
  else m

/-- One event: a main statement, or a timer interrupt, which runs a whole acquisition cycle
when interrupts are enabled. -/
def step (m : Machine) : Event → Machine
  | Event.main => stepMain m
  | Event.irq f => if m.I then { m with statics := ISR m.statics f } else m

/-- The machine after a sequence of events. -/
def exec (m : Machine) (events : List Event) : Machine :=
  events.foldl step m

end NoFilter

/-! ## The function `main` -/

/-- Control points of `main`: before `cli()`; before the watchdog, clock, LED port and
`i2c_init()` set-up; before `Nunchuk_Init()`; before `Timer_Init()`, `USB_Init()` and
`sei()` in the branch of a genuine nunchuk; inside the endless serving loop of that branch;
inside the endless error loop of the other branch. -/
inductive MainPc where
  | start
  | setup
  | identify
  | timer
  | usb
  | enable
  | serve
  | failed
deriving DecidableEq

/-- The calls made by `main` that the model records, in program order. -/
inductive MainCall where
  | cli
  | i2c_init
  | Nunchuk_Init
  | Timer_Init
  | USB_Init
  | sei
  | USBTask
deriving DecidableEq

/-- The processor while `main` runs, for statics of type `σ`: the sample buffers, the global
interrupt flag `I`, the timer compare interrupt enable bit `OCIE1A`, the control point, the
local counter `i`, the LED pin `PD6` and the calls made so far. -/
structure MainState (σ : Type) where
  statics : σ
  I : Bool
  OCIE1A : Bool
  pc : MainPc
  i : Nat
  PD6 : Bool
  calls : List MainCall

/-- What can happen next: `main` executes its next step, or the timer reaches its compare
value while the nunchuk would deliver the given frame. -/
inductive MainEvent where
  | main : MainEvent
  | tick : Frame → MainEvent
deriving DecidableEq

/-- The processor at the entry of `main`: zero-initialised statics are passed as `s`, the
timer compare interrupt is disabled (reset value of `TIMSK1`), the state of the global
interrupt flag left by the bootloader is `I0`. -/
def boot {σ : Type} (s : σ) (I0 : Bool) : MainState σ :=
  { statics := s, I := I0, OCIE1A := false, pc := MainPc.start, i := 0, PD6 := false,
    calls := [] }

/-- One step of `main`, where `idresp` are the identification bytes the nunchuk returns to
`Nunchuk_Init`. -/
def mainStep {σ : Type} (idresp : Frame) (m : MainState σ) : MainState σ :=
  match m.pc with
  | MainPc.start =>
    { m with I := false, pc := MainPc.setup, calls := m.calls ++ [MainCall.cli] }
  | MainPc.setup =>
    { m with PD6 := false, pc := MainPc.identify, calls := m.calls ++ [MainCall.i2c_init] }
  | MainPc.identify =>
    { m with
      pc := if Nunchuk_Init idresp = 1 then MainPc.timer else MainPc.failed
      calls := m.calls ++ [MainCall.Nunchuk_Init] }
  | MainPc.timer =>
    { m with OCIE1A := true, pc := MainPc.usb, calls := m.calls ++ [MainCall.Timer_Init] }
  | MainPc.usb =>
    { m with pc := MainPc.enable, calls := m.calls ++ [MainCall.USB_Init] }
  | MainPc.enable =>
    { m with I := true, pc := MainPc.serve, calls := m.calls ++ [MainCall.sei] }
  | MainPc.serve =>
    { m with
      i := if u16 (m.i + 1) = 16000 then 0 else u16 (m.i + 1)
      PD6 := if u16 (m.i + 1) = 16000 then !m.PD6 else m.PD6
      calls := m.calls ++ [MainCall.USBTask] }
  | MainPc.failed =>
    { m with
      i := if u16 (m.i + 1) = 65535 then 0 else u16 (m.i + 1)
      PD6 := if u16 (m.i + 1) = 65535 then false else m.PD6 }

/-- One event: a step of `main`, or a timer compare match, which runs the interrupt routine
`isr` exactly when both the global flag and the timer compare enable bit are set. -/
def mainEvent {σ : Type} (isr : σ → Frame → σ) (idresp : Frame) (m : MainState σ) :
    MainEvent → MainState σ
  | MainEvent.main => mainStep idresp m
  | MainEvent.tick f => if m.I && m.OCIE1A then { m with statics := isr m.statics f } else m

/-- The processor after a sequence of events. -/
def mainExec {σ : Type} (isr : σ → Frame → σ) (idresp : Frame) (m : MainState σ)
    (events : List MainEvent) : MainState σ :=
  events.foldl (mainEvent isr idresp) m

/-- The invariant of the start-up and of the error loop of `main` when the identification
fails. -/
def FailInv {σ : Type} (s0 : σ) (m : MainState σ) : Prop :=
  m.statics = s0 ∧ m.OCIE1A = false ∧ (m.pc ≠ MainPc.start → m.I = false) ∧
  (m.pc = MainPc.start ∨ m.pc = MainPc.setup ∨ m.pc = MainPc.identify ∨
    m.pc = MainPc.failed) ∧
  MainCall.Timer_Init ∉ m.calls ∧ MainCall.USB_Init ∉ m.calls ∧ MainCall.sei ∉ m.calls ∧
  m.calls.count MainCall.Nunchuk_Init = (if m.pc = MainPc.failed then 1 else 0)

/-- The control point of `main` after `n` of its steps when the identification fails. -/
def failPc (n : Nat) : MainPc :=
  if n = 0 then MainPc.start
  else if n = 1 then MainPc.setup
  else if n = 2 then MainPc.identify
  else MainPc.failed

/-! ## Bus operations -/

/-- The calls into the TWI library and the busy-wait delays, as they appear in the trace of a
routine. -/
inductive BusOp where
  | i2c_start_wait (addr : Nat)
  | i2c_rep_start (addr : Nat)
  | i2c_write (data : Nat)
  | i2c_readAck
  | i2c_readNak
  | i2c_stop
  | delay_us (n : Nat)
deriving DecidableEq

/-- Modelled from the spec: the direction bit `I2C_READ` of `i2cmaster.h`, a header that is
not among the sources; reads are addressed to `DevAddr + 1 = 0xA5`. -/
def I2C_READ : Nat := 1

/-- Modelled from the spec: the direction bit `I2C_WRITE` of `i2cmaster.h`, a header that is
not among the sources; writes are addressed to `DevAddr + 0 = 0xA4`. -/
def I2C_WRITE : Nat := 0

/-- The loop `while(i < (NUM_BYTES-1)) { nc_data[i] = i2c_readAck(); i++; }` followed by
`nc_data[i] = i2c_readNak()`. -/
def readBytesOps : List BusOp :=
  (List.range (NUM_BYTES - 1)).map (fun _ => BusOp.i2c_readAck) ++ [BusOp.i2c_readNak]

/-- The function `Nunchuk_Init` with its bus traffic: the operations it issues, in order,
and its return value, for the six identification bytes `nc_data` that the reads return. -/
def Nunchuk_Init_bus (nc_data : Frame) : List BusOp × Nat :=
  let old_init :=
    [BusOp.i2c_start_wait (DevAddr + I2C_WRITE), BusOp.i2c_write 0x40, BusOp.i2c_write 0x00,
      BusOp.i2c_stop, BusOp.delay_us 500]
  let request_id :=
    [BusOp.i2c_start_wait (DevAddr + I2C_WRITE), BusOp.i2c_write 0xFA, BusOp.i2c_stop,
      BusOp.delay_us 500]
  let read_id :=
    [BusOp.i2c_rep_start (DevAddr + I2C_READ)] ++ readBytesOps ++ [BusOp.i2c_stop]
  let i :=
    if nc_data.b2 = 0x9A ∧ nc_data.b3 = 0x1E ∧ nc_data.b4 = 0xFE ∧ nc_data.b5 = 0xFE then 1
    else 0
  let new_init :=
    [BusOp.delay_us 500,
      BusOp.i2c_start_wait (DevAddr + I2C_WRITE), BusOp.i2c_write 0xF0, BusOp.i2c_write 0x55,
      BusOp.i2c_stop, BusOp.delay_us 500,
      BusOp.i2c_start_wait (DevAddr + I2C_WRITE), BusOp.i2c_write 0xFB, BusOp.i2c_write 0x00,
      BusOp.i2c_stop, BusOp.delay_us 500]
  let request_sample :=
    [BusOp.i2c_start_wait (DevAddr + I2C_WRITE), BusOp.i2c_write 0x00, BusOp.i2c_stop,
      BusOp.delay_us 500]
  (old_init ++ request_id ++ read_id ++ new_init ++ request_sample, u8 i)

/-- The bus traffic of `ISR(TIMER1_COMPA_vect)` before the buffers are updated: the read of
one frame. -/
def ISR_read_ops : List BusOp :=
  [BusOp.i2c_rep_start (DevAddr + I2C_READ)] ++ readBytesOps ++ [BusOp.i2c_stop]

/-- The bus traffic of `ISR(TIMER1_COMPA_vect)` after the buffers are updated: the delay and
the request for the next sample. -/
def ISR_request_ops : List BusOp :=
  [BusOp.delay_us 15, BusOp.i2c_start_wait (DevAddr + I2C_WRITE), BusOp.i2c_write 0x00,
    BusOp.i2c_stop]

/-- The whole `ISR(TIMER1_COMPA_vect)` of the moving-average variant for the frame the reads
return: the new statics and the bus operations issued. -/
def MovingAverage.ISR_bus (depth : Nat) (s : MovingAverage.State) (nc_data : Frame) :
    MovingAverage.State × List BusOp :=
  (MovingAverage.ISR depth s nc_data, ISR_read_ops ++ ISR_request_ops)

/-- The whole `ISR(TIMER1_COMPA_vect)` of the passthrough variant for the frame the reads
return: the new statics and the bus operations issued. -/
def NoFilter.ISR_bus (s : NoFilter.State) (nc_data : Frame) : NoFilter.State × List BusOp :=
  (NoFilter.ISR s nc_data, ISR_read_ops ++ ISR_request_ops)

/-- A write transaction: start condition with the write address, the data bytes, stop. -/
def writeTx (addr : Nat) (bytes : List Nat) : List BusOp :=
  BusOp.i2c_start_wait addr :: (bytes.map BusOp.i2c_write ++ [BusOp.i2c_stop])

/-- A read transaction of `n` bytes: start condition with the read address, `n - 1`
acknowledged reads, one not-acknowledged read, stop. -/
def readTx (addr n : Nat) : List BusOp :=
  BusOp.i2c_rep_start addr ::
    (List.replicate (n - 1) BusOp.i2c_readAck ++ [BusOp.i2c_readNak, BusOp.i2c_stop])

/-! ## Accelerometer bits of a frame -/

/-- Two frames agree on the accelerometer bits: bytes 2, 3, 4 and bits 2..7 of byte 5; they
may differ in the joystick bytes 0 and 1 and in the button bits 0 and 1 of byte 5. -/
def sameAccel (f g : Frame) : Prop :=
  f.b2 = g.b2 ∧ f.b3 = g.b3 ∧ f.b4 = g.b4 ∧ f.b5.val / 4 = g.b5.val / 4

instance (f g : Frame) : Decidable (sameAccel f g) := by
  unfold sameAccel; infer_instance

/-! ## The coefficient table of `lpf.h` -/

namespace lpf

/-- The filter length `#define N 5`. -/
def N : Nat := 5

/-- The feed-forward coefficients `float b[N]`, their decimal literals read as exact
rationals. -/
def b : List ℚ := [0.0272941, 0.109176, 0.163765, 0.109176, 0.0272941]

/-- The feedback coefficients `float a[N]`, their decimal literals read as exact
rationals. -/
def a : List ℚ := [1, -1.4094, 1.32638, -0.608985, 0.130899]

end lpf

/-- The slots written by the successive acquisition cycles of a frame sequence: each cycle
writes the slot at its advanced cursor. -/
def MovingAverage.cursors (depth : Nat) : MovingAverage.State → List Frame → List Nat
  | _, [] => []
  | s, f :: fs =>
    (MovingAverage.ISR depth s f).cbi :: MovingAverage.cursors depth (MovingAverage.ISR depth s f) fs

/-! ## The timer set-up -/

/-- The bits and registers of timer 1 that `Timer_Init` writes: the compare interrupt enable
bit `OCIE1A` of `TIMSK1`, the compare flag `OCF1A` of `TIFR1`, the counter `TCNT1`, the mode
bit `WGM12` and the clock select bit `CS10` of `TCCR1B`, and the compare register `OCR1A`. -/
structure Timer1 where
  OCIE1A : Bool
  OCF1A : Bool
  TCNT1 : Nat
  WGM12 : Bool
  CS10 : Bool
  OCR1A : Nat
deriving DecidableEq

/-- The function `Timer_Init` of the moving-average variant for a depth `M`: the compare
value is chosen by `#if M == 8 ... #elif M == 16 ... #endif` and left alone for any other
depth. -/
def MovingAverage.Timer_Init (depth : Nat) (t : Timer1) : Timer1 :=
  { OCIE1A := true
    OCF1A := false
    TCNT1 := 0
    WGM12 := true
    CS10 := true
    OCR1A := if depth = 8 then u16 18384 else if depth = 16 then u16 12000 else t.OCR1A }

/-- The function `Timer_Init` of the passthrough variant. -/
def NoFilter.Timer_Init (_t : Timer1) : Timer1 :=
  { OCIE1A := true
    OCF1A := false
    TCNT1 := 0
    WGM12 := true
    CS10 := true
    OCR1A := u16 64000 }

/-- Modelled from the spec: the clock frequency `F_CPU` in Hz, a macro set by build files
that are not among the sources; the comments of `Timer_Init` compute with 16 MHz and take the
sampling period to be `Ts = OCR1A/F_CPU`. -/
def F_CPU : Nat := 16000000

/-! ## Arithmetic of the unpacking expressions -/

theorem mask2_eq : mask2 = 3 := by decide

theorem join10_eq (hi lo : Nat) (h : lo < 4) : join10 hi lo = 4 * hi + lo := by
  unfold join10
  rw [Nat.shiftLeft_eq, Nat.mul_comm hi]
  exact (Nat.mul_add_lt_is_or (i := 2) (by simpa using h) hi).symm

theorem field_x_eq (f : Frame) : field_x f = f.b5.val / 4 % 4 := by
  unfold field_x
  rw [mask2_eq, Nat.shiftRight_eq_div_pow]
  exact Nat.and_pow_two_sub_one_eq_mod _ 2

theorem field_y_eq (f : Frame) : field_y f = f.b5.val / 16 % 4 := by
  unfold field_y
  rw [mask2_eq, Nat.shiftRight_eq_div_pow]
  exact Nat.and_pow_two_sub_one_eq_mod _ 2

theorem field_z_eq (f : Frame) : field_z f = f.b5.val / 64 % 4 := by
  unfold field_z
  rw [mask2_eq, Nat.shiftRight_eq_div_pow]
  exact Nat.and_pow_two_sub_one_eq_mod _ 2

theorem unpack_x_eq (f : Frame) : unpack_x f = 4 * f.b2.val + f.b5.val / 4 % 4 := by
  unfold unpack_x
  rw [field_x_eq, join10_eq _ _ (Nat.mod_lt _ (by decide))]

theorem unpack_y_eq (f : Frame) : unpack_y f = 4 * f.b3.val + f.b5.val / 16 % 4 := by
  unfold unpack_y
  rw [field_y_eq, join10_eq _ _ (Nat.mod_lt _ (by decide))]

theorem unpack_z_eq (f : Frame) : unpack_z f = 4 * f.b4.val + f.b5.val / 64 % 4 := by
  unfold unpack_z
  rw [field_z_eq, join10_eq _ _ (Nat.mod_lt _ (by decide))]

theorem unpack_x_le (f : Frame) : unpack_x f ≤ 1023 := by
  have := f.b2.isLt
  rw [unpack_x_eq]; omega

theorem unpack_y_le (f : Frame) : unpack_y f ≤ 1023 := by
  have := f.b3.isLt
  rw [unpack_y_eq]; omega

theorem unpack_z_le (f : Frame) : unpack_z f ≤ 1023 := by
  have := f.b4.isLt
  rw [unpack_z_eq]; omega

theorem u16_of_le {v : Nat} (h : v ≤ 1023) : u16 v = v := by
  unfold u16; omega

/-! ## The ring buffer as a sliding window -/

namespace MovingAverage

theorem next_cbi_eq {depth c : Nat} (h256 : depth ≤ 256) (hc : c < depth) :
    next_cbi depth c = (c + 1) % depth := by
  unfold next_cbi u8
  by_cases h : c = depth - 1
  · rw [if_pos h]
    have : c + 1 = depth := by omega
    rw [this, Nat.mod_self]
  · rw [if_neg h]
    have h1 : c + 1 < depth := by omega
    rw [Nat.mod_eq_of_lt h1, Nat.mod_eq_of_lt (by omega)]

theorem next_cbi_lt {depth c : Nat} (h256 : depth ≤ 256) (hc : c < depth) :
    next_cbi depth c < depth := by
  rw [next_cbi_eq h256 hc]
  exact Nat.mod_lt _ (by omega)

theorem rotate_set_split (A B : List Nat) (x v : Nat) :
    ((A ++ x :: B).set A.length v).rotate (A.length + 1)
      = ((A ++ x :: B).rotate A.length).tail ++ [v] := by
  have h1 : (A ++ x :: B).set A.length v = (A ++ [v]) ++ B := by
    simp
  have h2 : (A ++ [v]).length = A.length + 1 := by simp
  rw [h1, ← h2, List.rotate_append_length_eq, List.rotate_append_length_eq]
  simp

theorem split_at (l : List Nat) (c : Nat) (hc : c < l.length) :
    ∃ A B, l = A ++ l.getD c 0 :: B ∧ A.length = c := by
  refine ⟨l.take c, l.drop (c + 1), ?_, ?_⟩
  · rw [List.getD_eq_getElem _ _ hc, ← List.drop_eq_getElem_cons hc, List.take_append_drop]
  · rw [List.length_take]; omega

theorem rotate_succ_set (l : List Nat) (c v : Nat) (hc : c < l.length) :
    (l.set c v).rotate (c + 1) = (l.rotate c).tail ++ [v] := by
  obtain ⟨A, B, hl, hA⟩ := split_at l c hc
  rw [hl, ← hA]
  exact rotate_set_split A B _ v

theorem getD_rotate_succ (l : List Nat) (c : Nat) (hc : c < l.length) :
    (l.rotate (c + 1)).getD (l.length - 1) 0 = l.getD c 0 := by
  have hk : l.length - 1 < (l.rotate (c + 1)).length := by
    rw [List.length_rotate]; omega
  rw [List.getD_eq_getElem _ _ hk, List.getD_eq_getElem _ _ hc, List.getElem_rotate]
  congr 1
  have : l.length - 1 + (c + 1) = c + l.length := by omega
  rw [this, Nat.add_mod_right, Nat.mod_eq_of_lt hc]

/-- The value an acquisition cycle stores for one axis. -/
theorem ringStep_stored {depth : Nat} (val : Frame → Nat) (r : Nat × List Nat) (f : Frame)
    (h256 : depth ≤ 256) (hc : r.1 < depth) (hl : r.2.length = depth) :
    (ringStep depth val r f).2.getD (ringStep depth val r f).1 0
      = if f.spike then r.2.getD r.1 0 else u16 (val f) := by
  have hlt : next_cbi depth r.1 < r.2.length := by rw [hl]; exact next_cbi_lt h256 hc
  unfold ringStep
  simp only
  rw [List.getD_eq_getElem _ _ (by rw [List.length_set]; exact hlt), List.getElem_set_self]

/-- One acquisition cycle shifts the chronological window by one place. -/
theorem window_ringStep {depth : Nat} (val : Frame → Nat) (r : Nat × List Nat) (f : Frame)
    (h256 : depth ≤ 256) (hc : r.1 < depth) (hl : r.2.length = depth) :
    window (ringStep depth val r f)
      = (window r).tail ++ [if f.spike then r.2.getD r.1 0 else u16 (val f)] := by
  have hlt : next_cbi depth r.1 < r.2.length := by rw [hl]; exact next_cbi_lt h256 hc
  unfold window ringStep
  simp only
  rw [rotate_succ_set _ _ _ hlt, next_cbi_eq h256 hc, ← hl, List.rotate_mod]

theorem ringStep_wf {depth : Nat} (val : Frame → Nat) (r : Nat × List Nat) (f : Frame)
    (h256 : depth ≤ 256) (hc : r.1 < depth) (hl : r.2.length = depth) :
    (ringStep depth val r f).1 < depth ∧ (ringStep depth val r f).2.length = depth := by
  unfold ringStep
  exact ⟨next_cbi_lt h256 hc, by rw [List.length_set]; exact hl⟩

theorem carried_length (val : Frame → Nat) (prev : Nat) (fs : List Frame) :
    (carried val prev fs).length = fs.length := by
  induction fs generalizing prev with
  | nil => rfl
  | cons f fs ih => simp [carried, ih]

/-- After any frame sequence the window is the old window followed by the valid-or-carried
samples, cut down to its last `depth` entries. -/
theorem window_foldl {depth : Nat} (val : Frame → Nat) (h256 : depth ≤ 256)
    (fs : List Frame) (r : Nat × List Nat) (hc : r.1 < depth) (hl : r.2.length = depth) :
    window (fs.foldl (ringStep depth val) r)
      = (window r ++ carried (fun f => u16 (val f)) (r.2.getD r.1 0) fs).drop fs.length := by
  induction fs generalizing r with
  | nil => simp [carried]
  | cons f fs ih =>
    obtain ⟨hc1, hl1⟩ := ringStep_wf val r f h256 hc hl
    rw [List.foldl_cons, ih _ hc1 hl1, window_ringStep val r f h256 hc hl,
      ringStep_stored val r f h256 hc hl]
    have hne : window r ≠ [] := by
      intro h
      have hlen : (window r).length = depth := by rw [window, List.length_rotate, hl]
      rw [h] at hlen
      simp at hlen
      omega
    obtain ⟨a, w, hw⟩ := List.exists_cons_of_ne_nil hne
    rw [hw]
    simp [carried]

/-! ## The acquisition cycle, axis by axis -/

theorem ISR_x (depth : Nat) (s : State) (f : Frame) :
    ((ISR depth s f).cbi, (ISR depth s f).buff_x)
      = ringStep depth unpack_x (s.cbi, s.buff_x) f := by
  unfold ISR ringStep Frame.spike
  by_cases h : f.b4 = 0xFE ∧ f.b5 = 0xFE <;> simp [h]

theorem ISR_y (depth : Nat) (s : State) (f : Frame) :
    ((ISR depth s f).cbi, (ISR depth s f).buff_y)
      = ringStep depth unpack_y (s.cbi, s.buff_y) f := by
  unfold ISR ringStep Frame.spike
  by_cases h : f.b4 = 0xFE ∧ f.b5 = 0xFE <;> simp [h]

theorem ISR_z (depth : Nat) (s : State) (f : Frame) :
    ((ISR depth s f).cbi, (ISR depth s f).buff_z)
      = ringStep depth unpack_z (s.cbi, s.buff_z) f := by
  unfold ISR ringStep Frame.spike
  by_cases h : f.b4 = 0xFE ∧ f.b5 = 0xFE <;> simp [h]

theorem run_x (depth : Nat) (fs : List Frame) (s : State) :
    ((run depth s fs).cbi, (run depth s fs).buff_x)
      = fs.foldl (ringStep depth unpack_x) (s.cbi, s.buff_x) := by
  induction fs generalizing s with
  | nil => rfl
  | cons f fs ih =>
    have h := ih (ISR depth s f)
    rw [ISR_x] at h
    exact h

theorem run_y (depth : Nat) (fs : List Frame) (s : State) :
    ((run depth s fs).cbi, (run depth s fs).buff_y)
      = fs.foldl (ringStep depth unpack_y) (s.cbi, s.buff_y) := by
  induction fs generalizing s with
  | nil => rfl
  | cons f fs ih =>
    have h := ih (ISR depth s f)
    rw [ISR_y] at h
    exact h

theorem run_z (depth : Nat) (fs : List Frame) (s : State) :
    ((run depth s fs).cbi, (run depth s fs).buff_z)
      = fs.foldl (ringStep depth unpack_z) (s.cbi, s.buff_z) := by
  induction fs generalizing s with
  | nil => rfl
  | cons f fs ih =>
    have h := ih (ISR depth s f)
    rw [ISR_z] at h
    exact h

theorem ISR_wf {depth : Nat} (h256 : depth ≤ 256) (s : State) (f : Frame) (hs : WF depth s) :
    WF depth (ISR depth s f) := by
  obtain ⟨hc, hx, hy, hz⟩ := hs
  have ex := ISR_x depth s f
  have ey := ISR_y depth s f
  have ez := ISR_z depth s f
  have wx := ringStep_wf unpack_x (s.cbi, s.buff_x) f h256 hc hx
  have wy := ringStep_wf unpack_y (s.cbi, s.buff_y) f h256 hc hy
  have wz := ringStep_wf unpack_z (s.cbi, s.buff_z) f h256 hc hz
  rw [← ex] at wx
  rw [← ey] at wy
  rw [← ez] at wz
  exact ⟨wx.1, wx.2, wy.2, wz.2⟩

theorem run_wf {depth : Nat} (h256 : depth ≤ 256) (fs : List Frame) (s : State)
    (hs : WF depth s) : WF depth (run depth s fs) := by
  induction fs generalizing s with
  | nil => exact hs
  | cons f fs ih => exact ih _ (ISR_wf h256 s f hs)

theorem init_wf {depth : Nat} (h0 : 0 < depth) : WF depth (init depth) := by
  simp [WF, init, h0]

/-! ## The summation loop and the rounding shift -/

theorem foldl_sumBody (s : State) (is : List Nat) (acc : Sums) :
    is.foldl (sumBody s) acc
      = ⟨is.foldl (fun a i => u16 (a + s.buff_x.getD i 0)) acc.sum_x,
         is.foldl (fun a i => u16 (a + s.buff_y.getD i 0)) acc.sum_y,
         is.foldl (fun a i => u16 (a + s.buff_z.getD i 0)) acc.sum_z⟩ := by
  induction is generalizing acc with
  | nil => rfl
  | cons i is ih => rw [List.foldl_cons, ih]; rfl

theorem foldl_range_sum (l : List Nat) (n : Nat) :
    (List.range n).foldl (fun a i => u16 (a + l.getD i 0)) 0 = u16 (l.take n).sum := by
  induction n with
  | zero => rfl
  | succ n ih =>
    rw [List.range_succ, List.foldl_append, ih, List.take_succ, List.sum_append]
    have h : (l[n]?.toList).sum = l.getD n 0 := by
      rw [List.getD_eq_getElem?_getD]
      cases l[n]? <;> simp
    rw [h]
    simp only [List.foldl_cons, List.foldl_nil, u16]
    omega

theorem sumLoop_eq {depth : Nat} (s : State) (hs : WF depth s) :
    sumLoop depth s = ⟨u16 s.buff_x.sum, u16 s.buff_y.sum, u16 s.buff_z.sum⟩ := by
  obtain ⟨_, hx, hy, hz⟩ := hs
  unfold sumLoop
  rw [foldl_sumBody, foldl_range_sum, foldl_range_sum, foldl_range_sum]
  rw [List.take_of_length_le (by omega), List.take_of_length_le (by omega),
    List.take_of_length_le (by omega)]

theorem LOG2F_pow {k : Nat} (hk : k ≤ 6) : LOG2F (2 ^ k) = k := by
  interval_cases k <;> decide

theorem roundShift_eq {k sum : Nat} (h1 : 1 ≤ k) (hk : k ≤ 6) (hsum : sum ≤ 1023 * 2 ^ k) :
    roundShift (2 ^ k) sum = (sum + 2 ^ k / 2) / 2 ^ k := by
  unfold roundShift
  rw [LOG2F_pow hk]
  unfold BV u16
  rw [Nat.shiftRight_eq_div_pow, Nat.one_shiftLeft]
  interval_cases k <;> omega

/-! ## Sums and bounds of the window -/

theorem window_sum (r : Nat × List Nat) : (window r).sum = r.2.sum :=
  (List.rotate_perm r.2 (r.1 + 1)).sum_eq

theorem carried_of_no_spike (val : Frame → Nat) (prev : Nat) (fs : List Frame)
    (h : ∀ f ∈ fs, ¬ f.spike) : carried val prev fs = fs.map val := by
  induction fs generalizing prev with
  | nil => rfl
  | cons f fs ih =>
    have hf : ¬ f.spike := h f (List.mem_cons_self _ _)
    simp only [carried, if_neg hf, List.map_cons]
    rw [ih _ (fun g hg => h g (List.mem_cons_of_mem _ hg))]

theorem sum_drop_zeros (depth : Nat) (vs : List Nat) :
    ((List.replicate depth 0 ++ vs).drop vs.length).sum
      = (vs.drop (vs.length - depth)).sum := by
  rw [List.drop_append_eq_append_drop, List.sum_append, List.drop_replicate,
    List.sum_replicate, List.length_replicate]
  simp

theorem window_init (depth : Nat) : window (0, List.replicate depth 0) = List.replicate depth 0 := by
  unfold window
  exact List.rotate_replicate _ _ _

theorem set_bounded {l : List Nat} {c v b : Nat} (hl : ∀ a ∈ l, a ≤ b) (hv : v ≤ b) :
    ∀ a ∈ l.set c v, a ≤ b := by
  intro a ha
  rcases List.mem_or_eq_of_mem_set ha with h | h
  · exact hl a h
  · exact h ▸ hv

theorem getD_bounded {l : List Nat} {b : Nat} (hl : ∀ a ∈ l, a ≤ b) (c : Nat) :
    l.getD c 0 ≤ b := by
  by_cases hc : c < l.length
  · rw [List.getD_eq_getElem _ _ hc]
    exact hl _ (List.getElem_mem hc)
  · rw [List.getD_eq_default _ _ (by omega)]
    exact Nat.zero_le _

theorem ringStep_bounded (depth : Nat) (val : Frame → Nat) (hval : ∀ f, val f ≤ 1023)
    (r : Nat × List Nat) (f : Frame) (hl : ∀ a ∈ r.2, a ≤ 1023) :
    ∀ a ∈ (ringStep depth val r f).2, a ≤ 1023 := by
  unfold ringStep
  apply set_bounded hl
  by_cases h : f.spike
  · rw [if_pos h]; exact getD_bounded hl _
  · rw [if_neg h, u16_of_le (hval f)]; exact hval f

theorem foldl_ringStep_bounded (depth : Nat) (val : Frame → Nat) (hval : ∀ f, val f ≤ 1023)
    (fs : List Frame) (r : Nat × List Nat) (hl : ∀ a ∈ r.2, a ≤ 1023) :
    ∀ a ∈ (fs.foldl (ringStep depth val) r).2, a ≤ 1023 := by
  induction fs generalizing r with
  | nil => exact hl
  | cons f fs ih => exact ih _ (ringStep_bounded depth val hval r f hl)

theorem sum_le_of_bounded {l : List Nat} (hl : ∀ a ∈ l, a ≤ 1023) :
    l.sum ≤ 1023 * l.length := by
  have h := List.sum_le_card_nsmul l 1023 hl
  simpa [Nat.mul_comm] using h

theorem init_bounded (depth : Nat) : Bounded (init depth) := by
  refine ⟨?_, ?_, ?_⟩ <;>
  · intro a ha
    rw [(List.mem_replicate.mp ha).2]
    exact Nat.zero_le _

theorem run_bounded (depth : Nat) (fs : List Frame) (s : State) (hs : Bounded s) :
    Bounded (run depth s fs) := by
  obtain ⟨hx, hy, hz⟩ := hs
  have bx := foldl_ringStep_bounded depth unpack_x unpack_x_le fs (s.cbi, s.buff_x) hx
  have by_ := foldl_ringStep_bounded depth unpack_y unpack_y_le fs (s.cbi, s.buff_y) hy
  have bz := foldl_ringStep_bounded depth unpack_z unpack_z_le fs (s.cbi, s.buff_z) hz
  rw [← run_x] at bx
  rw [← run_y] at by_
  rw [← run_z] at bz
  exact ⟨bx, by_, bz⟩

/-- On well-formed statics with 10-bit entries the report is the exact sum of each buffer,
plus half the depth, divided by the depth. -/
theorem report_eq {k : Nat} (h1 : 1 ≤ k) (hk : k ≤ 6) (s : State) (hs : WF (2 ^ k) s)
    (hb : Bounded s) :
    (CALLBACK_HID_Device_CreateHIDReport (2 ^ k) s).JoystickReport
      = { ax := (s.buff_x.sum + 2 ^ k / 2) / 2 ^ k
          ay := (s.buff_y.sum + 2 ^ k / 2) / 2 ^ k
          az := (s.buff_z.sum + 2 ^ k / 2) / 2 ^ k
          buttons := 0 } := by
  obtain ⟨bx, by_, bz⟩ := hb
  have sx := sum_le_of_bounded bx
  have sy := sum_le_of_bounded by_
  have sz := sum_le_of_bounded bz
  rw [hs.2.1] at sx
  rw [hs.2.2.1] at sy
  rw [hs.2.2.2] at sz
  have hp : 2 ^ k ≤ 64 := by
    calc 2 ^ k ≤ 2 ^ 6 := Nat.pow_le_pow_right (by decide) hk
      _ = 64 := by norm_num
  have ux : u16 s.buff_x.sum = s.buff_x.sum := by unfold u16; omega
  have uy : u16 s.buff_y.sum = s.buff_y.sum := by unfold u16; omega
  have uz : u16 s.buff_z.sum = s.buff_z.sum := by unfold u16; omega
  unfold CALLBACK_HID_Device_CreateHIDReport
  simp only [sumLoop_eq s hs, ux, uy, uz]
  rw [roundShift_eq h1 hk sx, roundShift_eq h1 hk sy, roundShift_eq h1 hk sz]

/-- From zeroed buffers, the sum of one axis buffer is the sum of the last `depth`
valid-or-carried samples (of all of them while fewer than `depth` frames have been read). -/
theorem foldl_ringStep_sum {depth : Nat} (val : Frame → Nat) (hval : ∀ f, val f ≤ 1023)
    (h0 : 0 < depth) (h256 : depth ≤ 256) (fs : List Frame) :
    (fs.foldl (ringStep depth val) (0, List.replicate depth 0)).2.sum
      = ((carried val 0 fs).drop (fs.length - depth)).sum := by
  have hu : (fun f => u16 (val f)) = val := funext fun f => u16_of_le (hval f)
  rw [← window_sum, window_foldl val h256 fs _ h0 (List.length_replicate _ _), window_init, hu]
  have hg : (List.replicate depth 0).getD 0 0 = 0 := by
    cases depth <;> rfl
  simp only [hg]
  have h := sum_drop_zeros depth (carried val 0 fs)
  rw [carried_length] at h
  exact h

/-- From zeroed buffers and for a power-of-two depth up to 64, the report after any frame
sequence averages, per axis, the last `depth` valid-or-carried samples, dividing by the
depth. -/
theorem report_run {k : Nat} (h1 : 1 ≤ k) (hk : k ≤ 6) (frames : List Frame) :
    (CALLBACK_HID_Device_CreateHIDReport (2 ^ k)
        (run (2 ^ k) (init (2 ^ k)) frames)).JoystickReport
      = { ax := (((carried unpack_x 0 frames).drop (frames.length - 2 ^ k)).sum + 2 ^ k / 2)
                  / 2 ^ k
          ay := (((carried unpack_y 0 frames).drop (frames.length - 2 ^ k)).sum + 2 ^ k / 2)
                  / 2 ^ k
          az := (((carried unpack_z 0 frames).drop (frames.length - 2 ^ k)).sum + 2 ^ k / 2)
                  / 2 ^ k
          buttons := 0 } := by
  have hp : 2 ^ k ≤ 256 := by
    calc 2 ^ k ≤ 2 ^ 6 := Nat.pow_le_pow_right (by decide) hk
      _ ≤ 256 := by norm_num
  have h0 : 0 < 2 ^ k := Nat.pow_pos (by decide)
  have hwf := run_wf hp frames _ (init_wf h0)
  have hb := run_bounded (2 ^ k) frames _ (init_bounded (2 ^ k))
  have hx := foldl_ringStep_sum unpack_x unpack_x_le h0 hp frames
  have hy := foldl_ringStep_sum unpack_y unpack_y_le h0 hp frames
  have hz := foldl_ringStep_sum unpack_z unpack_z_le h0 hp frames
  have ex := run_x (2 ^ k) frames (init (2 ^ k))
  have ey := run_y (2 ^ k) frames (init (2 ^ k))
  have ez := run_z (2 ^ k) frames (init (2 ^ k))
  have ix : ((init (2 ^ k)).cbi, (init (2 ^ k)).buff_x) = (0, List.replicate (2 ^ k) 0) := rfl
  have iy : ((init (2 ^ k)).cbi, (init (2 ^ k)).buff_y) = (0, List.replicate (2 ^ k) 0) := rfl
  have iz : ((init (2 ^ k)).cbi, (init (2 ^ k)).buff_z) = (0, List.replicate (2 ^ k) 0) := rfl
  rw [ix] at ex
  rw [iy] at ey
  rw [iz] at ez
  rw [← ex] at hx
  rw [← ey] at hy
  rw [← ez] at hz
  simp only at hx hy hz
  rw [report_eq h1 hk _ hwf hb, hx, hy, hz]

end MovingAverage

/-! ## Claims C1 and C2: the reported moving average -/

/-- C1 (as stated, refuted): after a single accepted frame whose x sample is 100 the claim
asks for the round-half-up of `100 / 1`, that is 100, but the report holds
`(100 + 4) / 8 = 13`: the sum is always divided by the depth `M`. -/
theorem C1_divisor_is_not_sample_count :
    ¬ (∀ frames : List Frame, 1 ≤ frames.length → (∀ f ∈ frames, ¬ f.spike) →
        (MovingAverage.CALLBACK_HID_Device_CreateHIDReport M
            (MovingAverage.run M (MovingAverage.init M) frames)).JoystickReport.ax
          = (2 * ((frames.drop (frames.length - min frames.length M)).map unpack_x).sum
              + min frames.length M) / (2 * min frames.length M)) := by
  intro h
  have h1 := h [⟨0, 0, 25, 0, 0, 0⟩] (by decide) (by decide)
  revert h1
  decide

/-- C1 (amended): with `M = 8` and zeroed buffers, after `n ≥ 1` frames none of which is a
spike, each reported axis is `(S + M/2) / M` rounded down, where `S` is the sum of that axis
over the last `min(n, M)` frames: the divisor is always the depth `M`. -/
theorem C1_moving_average_over_depth (frames : List Frame) (hn : 1 ≤ frames.length)
    (hns : ∀ f ∈ frames, ¬ f.spike) :
    (frames.drop (frames.length - M)).length = min frames.length M ∧
    (MovingAverage.CALLBACK_HID_Device_CreateHIDReport M
        (MovingAverage.run M (MovingAverage.init M) frames)).JoystickReport
      = { ax := (((frames.drop (frames.length - M)).map unpack_x).sum + M / 2) / M
          ay := (((frames.drop (frames.length - M)).map unpack_y).sum + M / 2) / M
          az := (((frames.drop (frames.length - M)).map unpack_z).sum + M / 2) / M
          buttons := 0 } := by
  refine ⟨by rw [List.length_drop]; omega, ?_⟩
  have h := MovingAverage.report_run (k := 3) (by decide) (by decide) frames
  rw [MovingAverage.carried_of_no_spike _ _ _ hns, MovingAverage.carried_of_no_spike _ _ _ hns,
    MovingAverage.carried_of_no_spike _ _ _ hns, ← List.map_drop, ← List.map_drop,
    ← List.map_drop] at h
  exact h

/-- Witness for C1: one accepted frame with x sample 100 is reported as 13. -/
theorem C1_moving_average_over_depth_witness :
    1 ≤ ([⟨0, 0, 25, 0, 0, 0⟩] : List Frame).length ∧
    (∀ f ∈ ([⟨0, 0, 25, 0, 0, 0⟩] : List Frame), ¬ f.spike) ∧
    (MovingAverage.CALLBACK_HID_Device_CreateHIDReport M
        (MovingAverage.run M (MovingAverage.init M) [⟨0, 0, 25, 0, 0, 0⟩])).JoystickReport
      = { ax := 13, ay := 0, az := 0, buttons := 0 } :=
  ⟨by decide, by decide,
    (C1_moving_average_over_depth [⟨0, 0, 25, 0, 0, 0⟩] (by decide) (by decide)).2⟩

/-- C2 (as stated, refuted): the eight frames with x byte 10, 20, ..., 80 do not give
`ax = 45`. -/
theorem C2_report_is_not_45 :
    (MovingAverage.CALLBACK_HID_Device_CreateHIDReport M
        (MovingAverage.run M (MovingAverage.init M)
          [⟨0, 0, 10, 0, 0, 0⟩, ⟨0, 0, 20, 0, 0, 0⟩, ⟨0, 0, 30, 0, 0, 0⟩, ⟨0, 0, 40, 0, 0, 0⟩,
           ⟨0, 0, 50, 0, 0, 0⟩, ⟨0, 0, 60, 0, 0, 0⟩, ⟨0, 0, 70, 0, 0, 0⟩,
           ⟨0, 0, 80, 0, 0, 0⟩])).JoystickReport.ax ≠ 45 := by
  decide

/-- C2 (amended): the eight frames with x byte 10, 20, ..., 80 and all other bytes zero give
`ax = 180`, the rounded mean of the samples 40, 80, ..., 320 (four times the x bytes). -/
theorem C2_report_is_180 :
    (MovingAverage.CALLBACK_HID_Device_CreateHIDReport M
        (MovingAverage.run M (MovingAverage.init M)
          [⟨0, 0, 10, 0, 0, 0⟩, ⟨0, 0, 20, 0, 0, 0⟩, ⟨0, 0, 30, 0, 0, 0⟩, ⟨0, 0, 40, 0, 0, 0⟩,
           ⟨0, 0, 50, 0, 0, 0⟩, ⟨0, 0, 60, 0, 0, 0⟩, ⟨0, 0, 70, 0, 0, 0⟩,
           ⟨0, 0, 80, 0, 0, 0⟩])).JoystickReport
      = { ax := 180, ay := 0, az := 0, buttons := 0 } := by
  decide

/-! ## Claim C3: carry-forward on a spike -/

namespace MovingAverage

theorem ISR_cbi (depth : Nat) (s : State) (f : Frame) :
    (ISR depth s f).cbi = next_cbi depth s.cbi :=
  congrArg Prod.fst (ISR_x depth s f)

theorem ISR_stored {depth : Nat} (h256 : depth ≤ 256) (s : State) (f : Frame)
    (hs : WF depth s) :
    (ISR depth s f).buff_x.getD (ISR depth s f).cbi 0
        = (if f.spike then s.buff_x.getD s.cbi 0 else unpack_x f) ∧
    (ISR depth s f).buff_y.getD (ISR depth s f).cbi 0
        = (if f.spike then s.buff_y.getD s.cbi 0 else unpack_y f) ∧
    (ISR depth s f).buff_z.getD (ISR depth s f).cbi 0
        = (if f.spike then s.buff_z.getD s.cbi 0 else unpack_z f) := by
  obtain ⟨hc, hx, hy, hz⟩ := hs
  have sx := ringStep_stored unpack_x (s.cbi, s.buff_x) f h256 hc hx
  have sy := ringStep_stored unpack_y (s.cbi, s.buff_y) f h256 hc hy
  have sz := ringStep_stored unpack_z (s.cbi, s.buff_z) f h256 hc hz
  rw [← ISR_x, u16_of_le (unpack_x_le f)] at sx
  rw [← ISR_y, u16_of_le (unpack_y_le f)] at sy
  rw [← ISR_z, u16_of_le (unpack_z_le f)] at sz
  exact ⟨sx, sy, sz⟩

theorem ISR_spike_eq (depth : Nat) (s : State) (f g : Frame) (hf : f.spike) (hg : ¬ g.spike)
    (hx : unpack_x g = s.buff_x.getD s.cbi 0) (hy : unpack_y g = s.buff_y.getD s.cbi 0)
    (hz : unpack_z g = s.buff_z.getD s.cbi 0) : ISR depth s g = ISR depth s f := by
  have ux : u16 (s.buff_x.getD s.cbi 0) = s.buff_x.getD s.cbi 0 := by
    rw [← hx]; exact u16_of_le (unpack_x_le g)
  have uy : u16 (s.buff_y.getD s.cbi 0) = s.buff_y.getD s.cbi 0 := by
    rw [← hy]; exact u16_of_le (unpack_y_le g)
  have uz : u16 (s.buff_z.getD s.cbi 0) = s.buff_z.getD s.cbi 0 := by
    rw [← hz]; exact u16_of_le (unpack_z_le g)
  unfold Frame.spike at hf hg
  unfold ISR
  simp only [hf, hg, not_true_eq_false, not_false_eq_true, if_true, if_false, ux, uy, uz,
    hx, hy, hz, and_self]

theorem frameOf_spec {x y z : Nat} (hx : x ≤ 1023) (hy : y ≤ 1023) (hz : z ≤ 1023) :
    ¬ (frameOf x y z).spike ∧ unpack_x (frameOf x y z) = x ∧ unpack_y (frameOf x y z) = y
      ∧ unpack_z (frameOf x y z) = z := by
  refine ⟨?_, ?_, ?_, ?_⟩
  · intro h
    have h5 := congrArg Fin.val h.2
    simp only [frameOf] at h5
    have : (254 : Fin 256).val = 254 := rfl
    rw [this] at h5
    omega
  · rw [unpack_x_eq]; simp only [frameOf]; omega
  · rw [unpack_y_eq]; simp only [frameOf]; omega
  · rw [unpack_z_eq]; simp only [frameOf]; omega

end MovingAverage

/-- C3: in a state `s` reached by at least one acquisition cycle (the last one on frame
`fprev`, which wrote slot `s.cbi`), a spike frame advances the cursor and writes into the new
slot, for x, y and z, exactly the values of the slot written by the preceding cycle (the
unpacked sample of `fprev` when that frame was accepted); the resulting statics, hence the
report, are those of a cycle that stores the previous sample again. -/
theorem C3_spike_repeats_previous_sample {depth : Nat} (h0 : 0 < depth) (h256 : depth ≤ 256)
    (frames : List Frame) (fprev f : Frame) (s : MovingAverage.State)
    (hs : s = MovingAverage.ISR depth
      (MovingAverage.run depth (MovingAverage.init depth) frames) fprev)
    (hf : f.spike) :
    (MovingAverage.ISR depth s f).cbi = (s.cbi + 1) % depth ∧
    (¬ fprev.spike → s.buff_x.getD s.cbi 0 = unpack_x fprev ∧
      s.buff_y.getD s.cbi 0 = unpack_y fprev ∧ s.buff_z.getD s.cbi 0 = unpack_z fprev) ∧
    ((MovingAverage.ISR depth s f).buff_x.getD (MovingAverage.ISR depth s f).cbi 0
        = s.buff_x.getD s.cbi 0 ∧
      (MovingAverage.ISR depth s f).buff_y.getD (MovingAverage.ISR depth s f).cbi 0
        = s.buff_y.getD s.cbi 0 ∧
      (MovingAverage.ISR depth s f).buff_z.getD (MovingAverage.ISR depth s f).cbi 0
        = s.buff_z.getD s.cbi 0) ∧
    (∀ g : Frame, ¬ g.spike → unpack_x g = s.buff_x.getD s.cbi 0 →
      unpack_y g = s.buff_y.getD s.cbi 0 → unpack_z g = s.buff_z.getD s.cbi 0 →
      MovingAverage.ISR depth s f = MovingAverage.ISR depth s g ∧
      MovingAverage.CALLBACK_HID_Device_CreateHIDReport depth (MovingAverage.ISR depth s f)
        = MovingAverage.CALLBACK_HID_Device_CreateHIDReport depth
            (MovingAverage.ISR depth s g)) ∧
    (∃ g : Frame, ¬ g.spike ∧ unpack_x g = s.buff_x.getD s.cbi 0 ∧
      unpack_y g = s.buff_y.getD s.cbi 0 ∧ unpack_z g = s.buff_z.getD s.cbi 0) := by
  have hwf0 := MovingAverage.run_wf h256 frames _ (MovingAverage.init_wf h0)
  have hwf : MovingAverage.WF depth s := hs ▸ MovingAverage.ISR_wf h256 _ fprev hwf0
  have hb : MovingAverage.Bounded s := by
    have h := MovingAverage.run_bounded depth (frames ++ [fprev]) _
      (MovingAverage.init_bounded depth)
    rw [MovingAverage.run, List.foldl_append] at h
    exact hs ▸ h
  have hst := MovingAverage.ISR_stored h256 s f hwf
  simp only [if_pos hf] at hst
  refine ⟨?_, ?_, hst, ?_, ?_⟩
  · rw [MovingAverage.ISR_cbi, MovingAverage.next_cbi_eq h256 hwf.1]
  · intro hp
    have h := MovingAverage.ISR_stored h256 _ fprev hwf0
    simp only [if_neg hp] at h
    rw [hs]
    exact h
  · intro g hg hx hy hz
    have h := MovingAverage.ISR_spike_eq depth s f g hf hg hx hy hz
    exact ⟨h.symm, by rw [h]⟩
  · have fx := MovingAverage.getD_bounded hb.1 s.cbi
    have fy := MovingAverage.getD_bounded hb.2.1 s.cbi
    have fz := MovingAverage.getD_bounded hb.2.2 s.cbi
    exact ⟨_, MovingAverage.frameOf_spec fx fy fz⟩

/-- Witness for C3: with `M = 8`, a first accepted frame with x sample 100 followed by a
spike leaves 100 in slot 2, the slot written by the spike cycle. -/
theorem C3_spike_repeats_previous_sample_witness :
    0 < M ∧ M ≤ 256 ∧ (⟨0, 0, 0, 0, 0xFE, 0xFE⟩ : Frame).spike ∧
    (MovingAverage.ISR M (MovingAverage.ISR M (MovingAverage.init M) ⟨0, 0, 25, 0, 0, 0⟩)
        ⟨0, 0, 0, 0, 0xFE, 0xFE⟩).buff_x.getD 2 0 = 100 :=
  ⟨by decide, by decide, by decide,
    (@C3_spike_repeats_previous_sample M (by decide) (by decide) []
      ⟨0, 0, 25, 0, 0, 0⟩ ⟨0, 0, 0, 0, 0xFE, 0xFE⟩ _ rfl (by decide)).2.2.1.1⟩

/-! ## Claims C4 and C5: axis unpacking -/

/-- C4 (as stated, refuted): the two-bit fields are not bits [2:1], [4:3] and [6:5] of byte 5.
For the accepted frame with byte 2 equal to 25 and byte 5 equal to 2 the claim gives x = 101,
the code stores x = 100. -/
theorem C4_fields_are_not_at_bits_1_3_5 :
    ¬ (∀ f : Frame, ¬ f.spike →
        (∀ s : NoFilter.State, NoFilter.ISR s f =
          { buff_x := 4 * f.b2.val + ((f.b5.val >>> 1) &&& 3)
            buff_y := 4 * f.b3.val + ((f.b5.val >>> 3) &&& 3)
            buff_z := 4 * f.b4.val + ((f.b5.val >>> 5) &&& 3) }) ∧
        (∀ s : MovingAverage.State, MovingAverage.WF M s →
          (MovingAverage.ISR M s f).buff_x.getD (MovingAverage.ISR M s f).cbi 0
              = 4 * f.b2.val + ((f.b5.val >>> 1) &&& 3) ∧
          (MovingAverage.ISR M s f).buff_y.getD (MovingAverage.ISR M s f).cbi 0
              = 4 * f.b3.val + ((f.b5.val >>> 3) &&& 3) ∧
          (MovingAverage.ISR M s f).buff_z.getD (MovingAverage.ISR M s f).cbi 0
              = 4 * f.b4.val + ((f.b5.val >>> 5) &&& 3))) := by
  intro h
  have h1 := (h ⟨0, 0, 25, 0, 0, 2⟩ (by decide)).1 NoFilter.init
  revert h1
  decide

/-- C4 (amended): for every frame that is not a spike, the acquisition cycle stores
`x = 4*byte[2] + f_x`, `y = 4*byte[3] + f_y`, `z = 4*byte[4] + f_z` with the two-bit fields at
bit positions [3:2], [5:4] and [7:6] of byte 5, that is `f_x = (byte[5] >> 2) & 3`,
`f_y = (byte[5] >> 4) & 3`, `f_z = (byte[5] >> 6) & 3`; in the passthrough variant and, at the
slot of the advanced cursor, in the moving-average variant. -/
theorem C4_unpacking_bit_positions (f : Frame) (hf : ¬ f.spike) :
    (∀ s : NoFilter.State, NoFilter.ISR s f =
      { buff_x := 4 * f.b2.val + ((f.b5.val >>> 2) &&& 3)
        buff_y := 4 * f.b3.val + ((f.b5.val >>> 4) &&& 3)
        buff_z := 4 * f.b4.val + ((f.b5.val >>> 6) &&& 3) }) ∧
    (∀ (depth : Nat) (s : MovingAverage.State), depth ≤ 256 → MovingAverage.WF depth s →
      (MovingAverage.ISR depth s f).buff_x.getD (MovingAverage.ISR depth s f).cbi 0
          = 4 * f.b2.val + ((f.b5.val >>> 2) &&& 3) ∧
      (MovingAverage.ISR depth s f).buff_y.getD (MovingAverage.ISR depth s f).cbi 0
          = 4 * f.b3.val + ((f.b5.val >>> 4) &&& 3) ∧
      (MovingAverage.ISR depth s f).buff_z.getD (MovingAverage.ISR depth s f).cbi 0
          = 4 * f.b4.val + ((f.b5.val >>> 6) &&& 3)) := by
  have ex : unpack_x f = 4 * f.b2.val + ((f.b5.val >>> 2) &&& 3) := by
    have h := join10_eq f.b2.val (field_x f) (by rw [field_x_eq]; omega)
    rw [field_x, mask2_eq] at h
    exact h
  have ey : unpack_y f = 4 * f.b3.val + ((f.b5.val >>> 4) &&& 3) := by
    have h := join10_eq f.b3.val (field_y f) (by rw [field_y_eq]; omega)
    rw [field_y, mask2_eq] at h
    exact h
  have ez : unpack_z f = 4 * f.b4.val + ((f.b5.val >>> 6) &&& 3) := by
    have h := join10_eq f.b4.val (field_z f) (by rw [field_z_eq]; omega)
    rw [field_z, mask2_eq] at h
    exact h
  constructor
  · intro s
    unfold Frame.spike at hf
    unfold NoFilter.ISR
    rw [if_pos hf, u16_of_le (unpack_x_le f), u16_of_le (unpack_y_le f),
      u16_of_le (unpack_z_le f), ex, ey, ez]
  · intro depth s h256 hs
    have h := MovingAverage.ISR_stored h256 s f hs
    simp only [if_neg hf] at h
    rw [ex, ey, ez] at h
    exact h

/-- Witness for C4: the accepted frame with bytes 2, 3, 4 equal to 25, 26, 27 and byte 5
equal to 0x6C (fields 3, 2, 1) is stored as (103, 106, 109). -/
theorem C4_unpacking_bit_positions_witness :
    ¬ (⟨0, 0, 25, 26, 27, 0x6C⟩ : Frame).spike ∧
    NoFilter.ISR NoFilter.init ⟨0, 0, 25, 26, 27, 0x6C⟩
      = { buff_x := 103, buff_y := 106, buff_z := 109 } :=
  ⟨by decide, (C4_unpacking_bit_positions ⟨0, 0, 25, 26, 27, 0x6C⟩ (by decide)).1 NoFilter.init⟩

theorem field_testBit (b sh i : Nat) :
    ((b >>> sh) &&& mask2).testBit i = (decide (i < 2) && b.testBit (sh + i)) := by
  have h3 : mask2 = 2 ^ 2 - 1 := by decide
  rw [h3, Nat.testBit_and, Nat.testBit_shiftRight, Nat.testBit_two_pow_sub_one, Bool.and_comm]

theorem unpack_agree_iff (f g : Frame) :
    (unpack_x f = unpack_x g ∧ unpack_y f = unpack_y g ∧ unpack_z f = unpack_z g) ↔
    (f.b2 = g.b2 ∧ f.b3 = g.b3 ∧ f.b4 = g.b4 ∧ field_x f = field_x g ∧ field_y f = field_y g
      ∧ field_z f = field_z g) := by
  simp only [unpack_x_eq, unpack_y_eq, unpack_z_eq, field_x_eq, field_y_eq, field_z_eq,
    Fin.ext_iff]
  omega

theorem MovingAverage.ISR_congr (depth : Nat) (s : MovingAverage.State) (f g : Frame)
    (hf : ¬ f.spike) (hg : ¬ g.spike) (hx : unpack_x f = unpack_x g)
    (hy : unpack_y f = unpack_y g) (hz : unpack_z f = unpack_z g) :
    MovingAverage.ISR depth s f = MovingAverage.ISR depth s g := by
  unfold Frame.spike at hf hg
  unfold MovingAverage.ISR
  simp only [hf, hg, not_false_eq_true, if_true, hx, hy, hz]

/-- C5: for accepted frames the stored value of each axis splits into its designated byte
(quotient by 4) and its two-bit field of byte 5 (remainder); the fields are bits [3:2], [5:4]
and [7:6] of byte 5, three disjoint ranges that together with bits [1:0] make up the byte; two
accepted frames leave the same statics exactly when they agree on bytes 2, 3, 4 and on the
three fields; and `(byte, field)` to value is a bijection onto 0..1023. -/
theorem C5_unpacking_is_lossless {depth : Nat} (h256 : depth ≤ 256)
    (s : MovingAverage.State) (hs : MovingAverage.WF depth s) (f g : Frame)
    (hf : ¬ f.spike) (hg : ¬ g.spike) :
    ((MovingAverage.ISR depth s f).buff_x.getD (MovingAverage.ISR depth s f).cbi 0 / 4
        = f.b2.val ∧
      (MovingAverage.ISR depth s f).buff_x.getD (MovingAverage.ISR depth s f).cbi 0 % 4
        = field_x f) ∧
    ((MovingAverage.ISR depth s f).buff_y.getD (MovingAverage.ISR depth s f).cbi 0 / 4
        = f.b3.val ∧
      (MovingAverage.ISR depth s f).buff_y.getD (MovingAverage.ISR depth s f).cbi 0 % 4
        = field_y f) ∧
    ((MovingAverage.ISR depth s f).buff_z.getD (MovingAverage.ISR depth s f).cbi 0 / 4
        = f.b4.val ∧
      (MovingAverage.ISR depth s f).buff_z.getD (MovingAverage.ISR depth s f).cbi 0 % 4
        = field_z f) ∧
    (∀ i, (field_x f).testBit i = (decide (i < 2) && f.b5.val.testBit (2 + i))) ∧
    (∀ i, (field_y f).testBit i = (decide (i < 2) && f.b5.val.testBit (4 + i))) ∧
    (∀ i, (field_z f).testBit i = (decide (i < 2) && f.b5.val.testBit (6 + i))) ∧
    f.b5.val = f.b5.val % 4 + 4 * field_x f + 16 * field_y f + 64 * field_z f ∧
    (MovingAverage.ISR depth s f = MovingAverage.ISR depth s g ↔
      (f.b2 = g.b2 ∧ f.b3 = g.b3 ∧ f.b4 = g.b4 ∧ field_x f = field_x g ∧
        field_y f = field_y g ∧ field_z f = field_z g)) ∧
    (NoFilter.ISR NoFilter.init f = NoFilter.ISR NoFilter.init g ↔
      (f.b2 = g.b2 ∧ f.b3 = g.b3 ∧ f.b4 = g.b4 ∧ field_x f = field_x g ∧
        field_y f = field_y g ∧ field_z f = field_z g)) ∧
    (∀ hi lo hi2 lo2 : Nat, hi < 256 → lo < 4 → hi2 < 256 → lo2 < 4 →
      join10 hi lo = join10 hi2 lo2 → hi = hi2 ∧ lo = lo2) ∧
    (∀ hi lo : Nat, hi < 256 → lo < 4 → join10 hi lo ≤ 1023) ∧
    (∀ v : Nat, v ≤ 1023 → ∃ hi lo : Nat, hi < 256 ∧ lo < 4 ∧ join10 hi lo = v) := by
  have hst := MovingAverage.ISR_stored h256 s f hs
  have hsg := MovingAverage.ISR_stored h256 s g hs
  simp only [if_neg hf] at hst
  simp only [if_neg hg] at hsg
  obtain ⟨sx, sy, sz⟩ := hst
  have b5 := f.b5.isLt
  refine ⟨?_, ?_, ?_, fun i => field_testBit _ _ _, fun i => field_testBit _ _ _,
    fun i => field_testBit _ _ _, ?_, ?_, ?_, ?_, ?_, ?_⟩
  · rw [sx, unpack_x_eq, field_x_eq]; omega
  · rw [sy, unpack_y_eq, field_y_eq]; omega
  · rw [sz, unpack_z_eq, field_z_eq]; omega
  · rw [field_x_eq, field_y_eq, field_z_eq]; omega
  · rw [← unpack_agree_iff]
    constructor
    · intro h
      rw [h] at sx sy sz
      exact ⟨sx.symm.trans hsg.1, sy.symm.trans hsg.2.1, sz.symm.trans hsg.2.2⟩
    · intro h
      exact MovingAverage.ISR_congr depth s f g hf hg h.1 h.2.1 h.2.2
  · rw [← unpack_agree_iff]
    unfold Frame.spike at hf hg
    unfold NoFilter.ISR
    rw [if_pos hf, if_pos hg, u16_of_le (unpack_x_le f), u16_of_le (unpack_y_le f),
      u16_of_le (unpack_z_le f), u16_of_le (unpack_x_le g), u16_of_le (unpack_y_le g),
      u16_of_le (unpack_z_le g)]
    constructor
    · intro h
      exact ⟨congrArg NoFilter.State.buff_x h, congrArg NoFilter.State.buff_y h,
        congrArg NoFilter.State.buff_z h⟩
    · intro h
      rw [h.1, h.2.1, h.2.2]
  · intro hi lo hi2 lo2 _ h1 _ h2 h
    rw [join10_eq _ _ h1, join10_eq _ _ h2] at h
    omega
  · intro hi lo h1 h2
    rw [join10_eq _ _ h2]; omega
  · intro v hv
    exact ⟨v / 4, v % 4, by omega, by omega, by rw [join10_eq _ _ (by omega)]; omega⟩

/-- Witness for C5: two accepted frames that differ only in the button bits of byte 5 leave
the same statics. -/
theorem C5_unpacking_is_lossless_witness :
    M ≤ 256 ∧ MovingAverage.WF M (MovingAverage.init M) ∧
    ¬ (⟨0, 0, 25, 26, 27, 0x6C⟩ : Frame).spike ∧ ¬ (⟨0, 0, 25, 26, 27, 0x6F⟩ : Frame).spike ∧
    (MovingAverage.ISR M (MovingAverage.init M) ⟨0, 0, 25, 26, 27, 0x6C⟩
        = MovingAverage.ISR M (MovingAverage.init M) ⟨0, 0, 25, 26, 27, 0x6F⟩ ↔
      ((25 : Fin 256) = 25 ∧ (26 : Fin 256) = 26 ∧ (27 : Fin 256) = 27 ∧
        field_x ⟨0, 0, 25, 26, 27, 0x6C⟩ = field_x ⟨0, 0, 25, 26, 27, 0x6F⟩ ∧
        field_y ⟨0, 0, 25, 26, 27, 0x6C⟩ = field_y ⟨0, 0, 25, 26, 27, 0x6F⟩ ∧
        field_z ⟨0, 0, 25, 26, 27, 0x6C⟩ = field_z ⟨0, 0, 25, 26, 27, 0x6F⟩)) :=
  ⟨by decide, MovingAverage.init_wf (by decide), by decide, by decide,
    (@C5_unpacking_is_lossless M (by decide) (MovingAverage.init M)
      (MovingAverage.init_wf (by decide)) ⟨0, 0, 25, 26, 27, 0x6C⟩ ⟨0, 0, 25, 26, 27, 0x6F⟩
      (by decide) (by decide)).2.2.2.2.2.2.2.1⟩

/-! ## Claim C6: device identification -/

/-- C6: `Nunchuk_Init` returns 1 exactly when bytes 2..5 of the identification response are
0x9A, 0x1E, 0xFE, 0xFE, and 0 otherwise; bytes 0 and 1 have no influence; changing any one of
bytes 2..5 of a matching response to another value gives 0. -/
theorem C6_identification (r : Frame) :
    (Nunchuk_Init r = 1 ↔ (r.b2 = 0x9A ∧ r.b3 = 0x1E ∧ r.b4 = 0xFE ∧ r.b5 = 0xFE)) ∧
    (¬ (r.b2 = 0x9A ∧ r.b3 = 0x1E ∧ r.b4 = 0xFE ∧ r.b5 = 0xFE) → Nunchuk_Init r = 0) ∧
    (∀ a b : Fin 256, Nunchuk_Init { r with b0 := a, b1 := b } = Nunchuk_Init r) ∧
    (Nunchuk_Init r = 1 → ∀ v : Fin 256,
      (v ≠ r.b2 → Nunchuk_Init { r with b2 := v } = 0) ∧
      (v ≠ r.b3 → Nunchuk_Init { r with b3 := v } = 0) ∧
      (v ≠ r.b4 → Nunchuk_Init { r with b4 := v } = 0) ∧
      (v ≠ r.b5 → Nunchuk_Init { r with b5 := v } = 0)) := by
  have key : ∀ q : Frame, (q.b2 = 0x9A ∧ q.b3 = 0x1E ∧ q.b4 = 0xFE ∧ q.b5 = 0xFE) →
      Nunchuk_Init q = 1 := by
    intro q h
    unfold Nunchuk_Init
    rw [if_pos h]; rfl
  have key0 : ∀ q : Frame, ¬ (q.b2 = 0x9A ∧ q.b3 = 0x1E ∧ q.b4 = 0xFE ∧ q.b5 = 0xFE) →
      Nunchuk_Init q = 0 := by
    intro q h
    unfold Nunchuk_Init
    rw [if_neg h]; rfl
  have iff1 : Nunchuk_Init r = 1 ↔ (r.b2 = 0x9A ∧ r.b3 = 0x1E ∧ r.b4 = 0xFE ∧ r.b5 = 0xFE) := by
    constructor
    · intro h
      by_contra hn
      rw [key0 r hn] at h
      exact absurd h (by decide)
    · exact key r
  refine ⟨iff1, key0 r, ?_, ?_⟩
  · intro a b
    rfl
  · intro h v
    obtain ⟨h2, h3, h4, h5⟩ := iff1.mp h
    refine ⟨?_, ?_, ?_, ?_⟩
    · intro hv; apply key0; intro hq; exact hv (hq.1.trans h2.symm)
    · intro hv; apply key0; intro hq; exact hv (hq.2.1.trans h3.symm)
    · intro hv; apply key0; intro hq; exact hv (hq.2.2.1.trans h4.symm)
    · intro hv; apply key0; intro hq; exact hv (hq.2.2.2.trans h5.symm)

/-! ## Claim C7: the rounding shift is round-half-up division -/

theorem BV_LOG2F_pow {k : Nat} (h1 : 1 ≤ k) (hk : k ≤ 6) :
    LOG2F (2 ^ k) = k ∧ BV (LOG2F (2 ^ k) - 1) = 2 ^ k / 2 := by
  refine ⟨MovingAverage.LOG2F_pow hk, ?_⟩
  rw [MovingAverage.LOG2F_pow hk]
  unfold BV
  rw [Nat.one_shiftLeft]
  interval_cases k <;> rfl

theorem floor_half_up {k : Nat} (h1 : 1 ≤ k) (S : Nat) :
    Nat.floor ((S : ℚ) / ((2 ^ k : Nat) : ℚ) + 1 / 2) = (S + 2 ^ k / 2) / 2 ^ k := by
  have hdvd : 2 ∣ 2 ^ k := dvd_pow_self 2 (by omega)
  have hpos : ((2 ^ k : Nat) : ℚ) ≠ 0 := by positivity
  have hcast : (((2 ^ k / 2 : Nat)) : ℚ) = ((2 ^ k : Nat) : ℚ) / 2 := by
    rw [Nat.cast_div hdvd (by norm_num)]
    norm_num
  have h : (S : ℚ) / ((2 ^ k : Nat) : ℚ) + 1 / 2
      = (((S + 2 ^ k / 2 : Nat)) : ℚ) / ((2 ^ k : Nat) : ℚ) := by
    rw [Nat.cast_add, hcast]
    generalize ((2 ^ k : Nat) : ℚ) = m at hpos
    have hm : m / 2 / m = 1 / 2 := by field_simp; ring
    rw [add_div, hm]
  rw [h, Nat.floor_div_eq_div]

theorem take_sum_le (l : List Nat) (n : Nat) : (l.take n).sum ≤ l.sum := by
  conv_rhs => rw [← List.take_append_drop n l, List.sum_append]
  exact Nat.le_add_right _ _

/-- C7: for every power-of-two depth `M = 2^k` with `2 ≤ M ≤ 64` and buffers of `M` entries
each at most 1023, the 16-bit accumulation and the addition of the rounding constant never
wrap (every partial sum plus the constant stays below 2^16, and the loop returns the exact
sums), the constant `1 << (LOG2F(M) - 1)` is `M/2`, and each reported axis equals
`floor((S + M/2) / M) = floor(S/M + 1/2)` for the exact sum `S` of its buffer. -/
theorem C7_round_half_up_shift {k : Nat} (h1 : 1 ≤ k) (hk : k ≤ 6) (s : MovingAverage.State)
    (hs : MovingAverage.WF (2 ^ k) s) (hb : MovingAverage.Bounded s) :
    (LOG2F (2 ^ k) = k ∧ BV (LOG2F (2 ^ k) - 1) = 2 ^ k / 2) ∧
    (∀ n, (s.buff_x.take n).sum + BV (LOG2F (2 ^ k) - 1) < 65536 ∧
      (s.buff_y.take n).sum + BV (LOG2F (2 ^ k) - 1) < 65536 ∧
      (s.buff_z.take n).sum + BV (LOG2F (2 ^ k) - 1) < 65536) ∧
    MovingAverage.sumLoop (2 ^ k) s = ⟨s.buff_x.sum, s.buff_y.sum, s.buff_z.sum⟩ ∧
    (MovingAverage.CALLBACK_HID_Device_CreateHIDReport (2 ^ k) s).JoystickReport
      = { ax := (s.buff_x.sum + 2 ^ k / 2) / 2 ^ k
          ay := (s.buff_y.sum + 2 ^ k / 2) / 2 ^ k
          az := (s.buff_z.sum + 2 ^ k / 2) / 2 ^ k
          buttons := 0 } ∧
    (s.buff_x.sum + 2 ^ k / 2) / 2 ^ k
      = Nat.floor ((s.buff_x.sum : ℚ) / ((2 ^ k : Nat) : ℚ) + 1 / 2) ∧
    (s.buff_y.sum + 2 ^ k / 2) / 2 ^ k
      = Nat.floor ((s.buff_y.sum : ℚ) / ((2 ^ k : Nat) : ℚ) + 1 / 2) ∧
    (s.buff_z.sum + 2 ^ k / 2) / 2 ^ k
      = Nat.floor ((s.buff_z.sum : ℚ) / ((2 ^ k : Nat) : ℚ) + 1 / 2) := by
  have hbv := BV_LOG2F_pow h1 hk
  have sx := MovingAverage.sum_le_of_bounded hb.1
  have sy := MovingAverage.sum_le_of_bounded hb.2.1
  have sz := MovingAverage.sum_le_of_bounded hb.2.2
  rw [hs.2.1] at sx
  rw [hs.2.2.1] at sy
  rw [hs.2.2.2] at sz
  have hp : 2 ^ k ≤ 64 := by
    calc 2 ^ k ≤ 2 ^ 6 := Nat.pow_le_pow_right (by decide) hk
      _ = 64 := by norm_num
  refine ⟨hbv, ?_, ?_, MovingAverage.report_eq h1 hk s hs hb, (floor_half_up h1 _).symm,
    (floor_half_up h1 _).symm, (floor_half_up h1 _).symm⟩
  · intro n
    have tx := take_sum_le s.buff_x n
    have ty := take_sum_le s.buff_y n
    have tz := take_sum_le s.buff_z n
    rw [hbv.2]
    omega
  · rw [MovingAverage.sumLoop_eq s hs]
    unfold u16
    rw [Nat.mod_eq_of_lt (by omega), Nat.mod_eq_of_lt (by omega), Nat.mod_eq_of_lt (by omega)]

/-- Witness for C7: depth 8 with all 24 entries equal to 1023 reports 1023 on every axis. -/
theorem C7_round_half_up_shift_witness :
    1 ≤ 3 ∧ 3 ≤ 6 ∧
    (MovingAverage.CALLBACK_HID_Device_CreateHIDReport (2 ^ 3)
        ⟨0, List.replicate 8 1023, List.replicate 8 1023, List.replicate 8 1023⟩).JoystickReport
      = { ax := 1023, ay := 1023, az := 1023, buttons := 0 } :=
  ⟨by decide, by decide,
    (@C7_round_half_up_shift 3 (by decide) (by decide)
      ⟨0, List.replicate 8 1023, List.replicate 8 1023, List.replicate 8 1023⟩
      (by decide) (by decide)).2.2.2.1⟩

/-! ## Claims C8 and C9: range invariant and the passthrough variant -/

theorem NoFilter.ISR_accepted (s : NoFilter.State) (f : Frame) (hf : ¬ f.spike) :
    NoFilter.ISR s f = { buff_x := unpack_x f, buff_y := unpack_y f, buff_z := unpack_z f } := by
  unfold Frame.spike at hf
  unfold NoFilter.ISR
  rw [if_pos hf, u16_of_le (unpack_x_le f), u16_of_le (unpack_y_le f),
    u16_of_le (unpack_z_le f)]

theorem NoFilter.ISR_spike (s : NoFilter.State) (f : Frame) (hf : f.spike) :
    NoFilter.ISR s f = s := by
  unfold Frame.spike at hf
  unfold NoFilter.ISR
  rw [if_neg (not_not_intro hf)]

theorem NoFilter.run_spikes (s : NoFilter.State) (fs : List Frame) (h : ∀ g ∈ fs, g.spike) :
    NoFilter.run s fs = s := by
  induction fs generalizing s with
  | nil => rfl
  | cons f fs ih =>
    have hf := h f (List.mem_cons_self _ _)
    show NoFilter.run (NoFilter.ISR s f) fs = s
    rw [NoFilter.ISR_spike s f hf]
    exact ih s (fun g hg => h g (List.mem_cons_of_mem _ hg))

theorem NoFilter.passthrough_run_bounded (fs : List Frame) (s : NoFilter.State)
    (hs : s.buff_x ≤ 1023 ∧ s.buff_y ≤ 1023 ∧ s.buff_z ≤ 1023) :
    (NoFilter.run s fs).buff_x ≤ 1023 ∧ (NoFilter.run s fs).buff_y ≤ 1023 ∧
      (NoFilter.run s fs).buff_z ≤ 1023 := by
  induction fs generalizing s with
  | nil => exact hs
  | cons f fs ih =>
    apply ih (NoFilter.ISR s f)
    by_cases hf : f.spike
    · rw [NoFilter.ISR_spike s f hf]; exact hs
    · rw [NoFilter.ISR_accepted s f hf]; exact ⟨unpack_x_le f, unpack_y_le f, unpack_z_le f⟩

/-- C8: from the zero-initialised statics and after any finite frame sequence, spikes
included, every slot of every axis buffer of the moving-average variant (power-of-two depth
from 2 to 64) is at most 1023 and so are `ax`, `ay`, `az` of a report generated there; the
same holds for the stored values and the report of the passthrough variant. -/
theorem C8_ten_bit_range {k : Nat} (h1 : 1 ≤ k) (hk : k ≤ 6) (frames : List Frame) :
    ((∀ a ∈ (MovingAverage.run (2 ^ k) (MovingAverage.init (2 ^ k)) frames).buff_x, a ≤ 1023) ∧
      (∀ a ∈ (MovingAverage.run (2 ^ k) (MovingAverage.init (2 ^ k)) frames).buff_y, a ≤ 1023) ∧
      (∀ a ∈ (MovingAverage.run (2 ^ k) (MovingAverage.init (2 ^ k)) frames).buff_z,
        a ≤ 1023)) ∧
    ((MovingAverage.CALLBACK_HID_Device_CreateHIDReport (2 ^ k)
        (MovingAverage.run (2 ^ k) (MovingAverage.init (2 ^ k)) frames)).JoystickReport.ax
          ≤ 1023 ∧
      (MovingAverage.CALLBACK_HID_Device_CreateHIDReport (2 ^ k)
        (MovingAverage.run (2 ^ k) (MovingAverage.init (2 ^ k)) frames)).JoystickReport.ay
          ≤ 1023 ∧
      (MovingAverage.CALLBACK_HID_Device_CreateHIDReport (2 ^ k)
        (MovingAverage.run (2 ^ k) (MovingAverage.init (2 ^ k)) frames)).JoystickReport.az
          ≤ 1023) ∧
    ((NoFilter.run NoFilter.init frames).buff_x ≤ 1023 ∧
      (NoFilter.run NoFilter.init frames).buff_y ≤ 1023 ∧
      (NoFilter.run NoFilter.init frames).buff_z ≤ 1023) ∧
    ((NoFilter.CALLBACK_HID_Device_CreateHIDReport
        (NoFilter.run NoFilter.init frames)).JoystickReport.ax ≤ 1023 ∧
      (NoFilter.CALLBACK_HID_Device_CreateHIDReport
        (NoFilter.run NoFilter.init frames)).JoystickReport.ay ≤ 1023 ∧
      (NoFilter.CALLBACK_HID_Device_CreateHIDReport
        (NoFilter.run NoFilter.init frames)).JoystickReport.az ≤ 1023) := by
  have hp : 2 ^ k ≤ 256 := by
    calc 2 ^ k ≤ 2 ^ 6 := Nat.pow_le_pow_right (by decide) hk
      _ ≤ 256 := by norm_num
  have h0 : 0 < 2 ^ k := Nat.pow_pos (by decide)
  have hwf := MovingAverage.run_wf hp frames _ (MovingAverage.init_wf h0)
  have hb := MovingAverage.run_bounded (2 ^ k) frames _ (MovingAverage.init_bounded (2 ^ k))
  have hn := NoFilter.passthrough_run_bounded frames NoFilter.init
    ⟨Nat.zero_le _, Nat.zero_le _, Nat.zero_le _⟩
  refine ⟨hb, ?_, hn, hn⟩
  have sx := MovingAverage.sum_le_of_bounded hb.1
  have sy := MovingAverage.sum_le_of_bounded hb.2.1
  have sz := MovingAverage.sum_le_of_bounded hb.2.2
  rw [hwf.2.1] at sx
  rw [hwf.2.2.1] at sy
  rw [hwf.2.2.2] at sz
  have hh : 2 ^ k / 2 < 2 ^ k := Nat.div_lt_self h0 (by decide)
  rw [MovingAverage.report_eq h1 hk _ hwf hb]
  have bound : ∀ S : Nat, S ≤ 1023 * 2 ^ k → (S + 2 ^ k / 2) / 2 ^ k ≤ 1023 := by
    intro S hS
    apply Nat.le_of_lt_succ
    rw [Nat.div_lt_iff_lt_mul h0]
    omega
  exact ⟨bound _ sx, bound _ sy, bound _ sz⟩

/-- Witness for C8: depth 8 and the single frame with all bytes 0xFF, whose samples are
1023 on every axis. -/
theorem C8_ten_bit_range_witness :
    1 ≤ 3 ∧ 3 ≤ 6 ∧
    (MovingAverage.CALLBACK_HID_Device_CreateHIDReport (2 ^ 3)
      (MovingAverage.run (2 ^ 3) (MovingAverage.init (2 ^ 3))
        [⟨255, 255, 255, 255, 255, 255⟩])).JoystickReport.ax ≤ 1023 :=
  ⟨by decide, by decide,
    (@C8_ten_bit_range 3 (by decide) (by decide) [⟨255, 255, 255, 255, 255, 255⟩]).2.1.1⟩

/-- C9: in the passthrough variant, the report generated after a frame sequence fed from the
zero-initialised statics is the unpacked (x, y, z) of the last frame that is not a spike, and
(0, 0, 0) when every frame is a spike or the sequence is empty; a spike frame leaves
`buff_x`, `buff_y` and `buff_z` unchanged. -/
theorem C9_passthrough_reports_last_accepted (frames : List Frame) :
    (∀ (pre post : List Frame) (f : Frame), frames = pre ++ f :: post → ¬ f.spike →
      (∀ g ∈ post, g.spike) →
      (NoFilter.CALLBACK_HID_Device_CreateHIDReport
          (NoFilter.run NoFilter.init frames)).JoystickReport
        = { ax := unpack_x f, ay := unpack_y f, az := unpack_z f, buttons := 0 }) ∧
    ((∀ g ∈ frames, g.spike) →
      (NoFilter.CALLBACK_HID_Device_CreateHIDReport
          (NoFilter.run NoFilter.init frames)).JoystickReport
        = { ax := 0, ay := 0, az := 0, buttons := 0 }) ∧
    (∀ (s : NoFilter.State) (f : Frame), f.spike → NoFilter.ISR s f = s) := by
  refine ⟨?_, ?_, NoFilter.ISR_spike⟩
  · intro pre post f hfr hf hpost
    have hrun : NoFilter.run NoFilter.init frames
        = { buff_x := unpack_x f, buff_y := unpack_y f, buff_z := unpack_z f } := by
      rw [hfr, NoFilter.run, List.foldl_append, List.foldl_cons,
        NoFilter.ISR_accepted _ f hf]
      exact NoFilter.run_spikes _ post hpost
    rw [hrun]
    rfl
  · intro h
    rw [NoFilter.run_spikes _ frames h]
    rfl

/-- Witness for C9: an accepted frame followed by a spike is reported as the accepted
frame's sample (103, 106, 109). -/
theorem C9_passthrough_reports_last_accepted_witness :
    ¬ (⟨0, 0, 25, 26, 27, 0x6C⟩ : Frame).spike ∧
    (∀ g ∈ [(⟨0, 0, 0, 0, 0xFE, 0xFE⟩ : Frame)], g.spike) ∧
    (NoFilter.CALLBACK_HID_Device_CreateHIDReport
        (NoFilter.run NoFilter.init
          [⟨1, 2, 3, 4, 5, 6⟩, ⟨0, 0, 25, 26, 27, 0x6C⟩,
            ⟨0, 0, 0, 0, 0xFE, 0xFE⟩])).JoystickReport
      = { ax := 103, ay := 106, az := 109, buttons := 0 } :=
  ⟨by decide, by decide,
    (C9_passthrough_reports_last_accepted
      [⟨1, 2, 3, 4, 5, 6⟩, ⟨0, 0, 25, 26, 27, 0x6C⟩, ⟨0, 0, 0, 0, 0xFE, 0xFE⟩]).1
      [⟨1, 2, 3, 4, 5, 6⟩] [⟨0, 0, 0, 0, 0xFE, 0xFE⟩] ⟨0, 0, 25, 26, 27, 0x6C⟩ rfl
      (by decide) (by decide)⟩

/-! ## Claim C10: the report generator reads one buffer state -/

namespace MovingAverage

theorem readStep_triple (s : State) (acc : Sums) (n : Nat) :
    readStep s (readStep s (readStep s acc (3 * n)) (3 * n + 1)) (3 * n + 2)
      = sumBody s acc n := by
  have h0 : 3 * n % 3 = 0 := by omega
  have h1 : (3 * n + 1) % 3 = 1 := by omega
  have h2 : (3 * n + 2) % 3 = 2 := by omega
  have d0 : 3 * n / 3 = n := by omega
  have d1 : (3 * n + 1) / 3 = n := by omega
  have d2 : (3 * n + 2) / 3 = n := by omega
  simp [readStep, sumBody, h0, h1, h2, d0, d1, d2]

/-- The `3 * depth` single reads compute the sums of the loop of the report generator. -/
theorem readLoop_eq (s : State) (depth : Nat) :
    (List.range (3 * depth)).foldl (readStep s) ⟨0, 0, 0⟩ = sumLoop depth s := by
  unfold sumLoop
  induction depth with
  | zero => rfl
  | succ n ih =>
    have h3 : 3 * (n + 1) = 3 * n + 1 + 1 + 1 := by ring
    rw [h3, List.range_succ, List.range_succ, List.range_succ, List.range_succ (n := n)]
    simp only [List.foldl_append, List.foldl_cons, List.foldl_nil]
    rw [ih, Nat.add_assoc (3 * n) 1 1]
    exact readStep_triple s _ n

theorem phase_step (depth : Nat) (snap : State) (m : Machine) (e : Event)
    (h : Phase depth snap m) : Phase depth snap (step depth m e) := by
  cases e with
  | irq f =>
    rcases h with ⟨h1, h2, hI, hst, hsum, hres⟩ | ⟨hpc, hsum, hres⟩ | ⟨hpc, hres⟩
    · have : step depth m (Event.irq f) = m := by simp [step, hI]
      rw [this]
      exact Or.inl ⟨h1, h2, hI, hst, hsum, hres⟩
    · refine Or.inr (Or.inl ?_)
      by_cases hI : m.I = true
      · simp only [step, if_pos hI]; exact ⟨hpc, hsum, hres⟩
      · simp only [step, if_neg hI]; exact ⟨hpc, hsum, hres⟩
    · refine Or.inr (Or.inr ?_)
      by_cases hI : m.I = true
      · simp only [step, if_pos hI]; exact ⟨hpc, hres⟩
      · simp only [step, if_neg hI]; exact ⟨hpc, hres⟩
  | main =>
    rcases h with ⟨h1, h2, hI, hst, hsum, hres⟩ | ⟨hpc, hsum, hres⟩ | ⟨hpc, hres⟩
    · have hne : ¬ m.pc = 0 := by omega
      by_cases hlt : m.pc < 1 + 3 * depth
      · refine Or.inl ?_
        simp only [step, stepMain, if_neg hne, if_pos hlt]
        refine ⟨by omega, by omega, hI, hst, ?_, hres⟩
        have hp : m.pc + 1 - 1 = (m.pc - 1) + 1 := by omega
        rw [hp, List.range_succ, List.foldl_append, ← hsum, hst]
        rfl
      · have heq : m.pc = 1 + 3 * depth := by omega
        refine Or.inr (Or.inl ?_)
        simp only [step, stepMain, if_neg hne, if_neg hlt, if_pos heq]
        refine ⟨by omega, ?_, hres⟩
        rw [hsum, heq, Nat.add_sub_cancel_left]
        exact readLoop_eq snap depth
    · have hne : ¬ m.pc = 0 := by omega
      have hlt : ¬ m.pc < 1 + 3 * depth := by omega
      have hn1 : ¬ m.pc = 1 + 3 * depth := by omega
      refine Or.inr (Or.inr ?_)
      simp only [step, stepMain, if_neg hne, if_neg hlt, if_neg hn1, if_pos hpc]
      refine ⟨by omega, ?_⟩
      rw [hsum]
      rfl
    · have hne : ¬ m.pc = 0 := by omega
      have hlt : ¬ m.pc < 1 + 3 * depth := by omega
      have hn1 : ¬ m.pc = 1 + 3 * depth := by omega
      have hn2 : ¬ m.pc = 2 + 3 * depth := by omega
      refine Or.inr (Or.inr ?_)
      simp only [step, stepMain, if_neg hne, if_neg hlt, if_neg hn1, if_neg hn2]
      exact ⟨hpc, hres⟩

theorem phase_exec (depth : Nat) (snap : State) (es : List Event) (m : Machine)
    (h : Phase depth snap m) : Phase depth snap (exec depth m es) := by
  induction es generalizing m with
  | nil => exact h
  | cons e es ih => exact ih _ (phase_step depth snap m e h)

theorem exec_append (depth : Nat) (m : Machine) (p q : List Event) :
    exec depth m (p ++ q) = exec depth (exec depth m p) q := by
  unfold exec
  rw [List.foldl_append]

/-- A run that returns a report has a first main step, the `cli()`; before it only
interrupts occurred, each running one whole acquisition cycle. -/
theorem first_main (depth : Nat) (es : List Event) (s : State) (res : HIDReportResult)
    (h : (exec depth (enter s) es).result = some res) :
    ∃ pre rest fs, es = pre ++ Event.main :: rest ∧
      exec depth (enter s) pre = enter (run depth s fs) := by
  induction es generalizing s with
  | nil => exact absurd h (by simp [exec, enter])
  | cons e es ih =>
    cases e with
    | main => exact ⟨[], es, [], rfl, rfl⟩
    | irq f =>
      have hstep : step depth (enter s) (Event.irq f) = enter (ISR depth s f) := by
        simp [step, enter]
      have h2 : (exec depth (enter (ISR depth s f)) es).result = some res := by
        rw [← hstep]; exact h
      obtain ⟨pre, rest, fs, hes, hpre⟩ := ih _ h2
      refine ⟨Event.irq f :: pre, rest, f :: fs, by rw [hes]; rfl, ?_⟩
      show exec depth (step depth (enter s) (Event.irq f)) pre = _
      rw [hstep, hpre]
      rfl

end MovingAverage

/-- C10: let the report generator of the moving-average variant run interleaved with timer
interrupts, each of which runs a whole acquisition cycle whenever the interrupt flag is set.
If the generator returns a report, the event sequence splits at its `cli()` step; the statics
`snap` at that step are the result of complete acquisition cycles; from there until `sei()`
is due, that is before each of the `3 * depth` buffer reads and after the last one,
interrupts are disabled and the statics are still `snap`; and the report is the one computed
from `snap` alone, so all three axes are rounded averages of that single buffer state. -/
theorem C10_report_reads_one_buffer_state (depth : Nat) (s0 : MovingAverage.State)
    (events : List MovingAverage.Event) (res : HIDReportResult)
    (hres : (MovingAverage.exec depth (MovingAverage.enter s0) events).result = some res) :
    ∃ (pre rest : List MovingAverage.Event) (fs : List Frame),
      events = pre ++ MovingAverage.Event.main :: rest ∧
      (MovingAverage.exec depth (MovingAverage.enter s0)
        (pre ++ [MovingAverage.Event.main])).pc = 1 ∧
      (MovingAverage.exec depth (MovingAverage.enter s0)
        (pre ++ [MovingAverage.Event.main])).statics = MovingAverage.run depth s0 fs ∧
      (∀ q1 q2 : List MovingAverage.Event, rest = q1 ++ q2 →
        (MovingAverage.exec depth (MovingAverage.enter s0)
          (pre ++ MovingAverage.Event.main :: q1)).pc ≤ 1 + 3 * depth →
        (MovingAverage.exec depth (MovingAverage.enter s0)
          (pre ++ MovingAverage.Event.main :: q1)).I = false ∧
        (MovingAverage.exec depth (MovingAverage.enter s0)
          (pre ++ MovingAverage.Event.main :: q1)).statics = MovingAverage.run depth s0 fs) ∧
      res = MovingAverage.CALLBACK_HID_Device_CreateHIDReport depth
        (MovingAverage.run depth s0 fs) := by
  obtain ⟨pre, rest, fs, hes, hpre⟩ := MovingAverage.first_main depth events s0 res hres
  have hm1 : MovingAverage.exec depth (MovingAverage.enter s0)
      (pre ++ [MovingAverage.Event.main])
        = { statics := MovingAverage.run depth s0 fs, I := false, pc := 1,
            sums := ⟨0, 0, 0⟩, result := none } := by
    rw [MovingAverage.exec_append, hpre]
    rfl
  have hph : MovingAverage.Phase depth (MovingAverage.run depth s0 fs)
      (MovingAverage.exec depth (MovingAverage.enter s0)
        (pre ++ [MovingAverage.Event.main])) := by
    rw [hm1]
    exact Or.inl ⟨Nat.le_refl 1, by simp, rfl, rfl, rfl, rfl⟩
  have hsplit : ∀ q : List MovingAverage.Event,
      MovingAverage.exec depth (MovingAverage.enter s0) (pre ++ MovingAverage.Event.main :: q)
        = MovingAverage.exec depth (MovingAverage.exec depth (MovingAverage.enter s0)
            (pre ++ [MovingAverage.Event.main])) q := by
    intro q
    rw [← MovingAverage.exec_append, List.append_assoc]
    rfl
  refine ⟨pre, rest, fs, hes, by rw [hm1], by rw [hm1], ?_, ?_⟩
  · intro q1 q2 _ hpc
    rw [hsplit q1] at hpc ⊢
    rcases MovingAverage.phase_exec depth _ q1 _ hph with h | h | h
    · exact ⟨h.2.2.1, h.2.2.2.1⟩
    · omega
    · omega
  · rw [hes, hsplit rest] at hres
    rcases MovingAverage.phase_exec depth _ rest _ hph with h | h | h
    · rw [h.2.2.2.2.2] at hres; exact absurd hres (by simp)
    · rw [h.2.2] at hres; exact absurd hres (by simp)
    · rw [h.2] at hres
      exact (Option.some.inj hres).symm

/-- Witness for C10: depth 8; one cycle with x sample 100 runs before `cli()`, an interrupt
raised inside the critical section (x sample 1000) stays pending, one more is served after
`sei()`; the report is that of the statics at `cli()`, with `ax = (100 + 4) / 8 = 13`. -/
theorem C10_report_reads_one_buffer_state_witness :
    (MovingAverage.exec M (MovingAverage.enter (MovingAverage.init M))
        ([MovingAverage.Event.irq ⟨0, 0, 25, 0, 0, 0⟩, MovingAverage.Event.main,
            MovingAverage.Event.irq ⟨0, 0, 250, 0, 0, 0⟩]
          ++ List.replicate 25 MovingAverage.Event.main
          ++ [MovingAverage.Event.irq ⟨0, 0, 250, 0, 0, 0⟩, MovingAverage.Event.main])).result
      = some { JoystickReport := { ax := 13, ay := 0, az := 0, buttons := 0 },
               ReportSize := 7, ret := true } ∧
    ∃ fs : List Frame,
      ({ JoystickReport := { ax := 13, ay := 0, az := 0, buttons := 0 },
         ReportSize := 7, ret := true } : HIDReportResult)
        = MovingAverage.CALLBACK_HID_Device_CreateHIDReport M
            (MovingAverage.run M (MovingAverage.init M) fs) := by
  refine ⟨by decide, ?_⟩
  obtain ⟨_, _, fs, _, _, _, _, h⟩ :=
    C10_report_reads_one_buffer_state M (MovingAverage.init M)
      ([MovingAverage.Event.irq ⟨0, 0, 25, 0, 0, 0⟩, MovingAverage.Event.main,
          MovingAverage.Event.irq ⟨0, 0, 250, 0, 0, 0⟩]
        ++ List.replicate 25 MovingAverage.Event.main
        ++ [MovingAverage.Event.irq ⟨0, 0, 250, 0, 0, 0⟩, MovingAverage.Event.main])
      { JoystickReport := { ax := 13, ay := 0, az := 0, buttons := 0 },
        ReportSize := 7, ret := true }
      (by decide)
  exact ⟨fs, h⟩

/-! ## Claim C11: the passthrough report generator has no critical section -/

/-- C11 (evaluation of the code at the failing interleaving): a first cycle stores
(100, 200, 300); the generator copies `ax = 100`; the timer interrupt is served and stores
(400, 500, 600); the generator copies `ay = 500` and `az = 600`.  The report (100, 500, 600)
is returned although at no point of the run the statics held that triple: it mixes two
acquisition cycles.  Interrupts stay enabled throughout. -/
theorem C11_passthrough_report_mixes_two_cycles :
    (NoFilter.exec (NoFilter.enter NoFilter.init)
        [NoFilter.Event.irq ⟨0, 0, 25, 50, 75, 0⟩, NoFilter.Event.main,
          NoFilter.Event.irq ⟨0, 0, 100, 125, 150, 0⟩, NoFilter.Event.main,
          NoFilter.Event.main, NoFilter.Event.main]).result
      = some { JoystickReport := { ax := 100, ay := 500, az := 600, buttons := 0 },
               ReportSize := 7, ret := true } ∧
    NoFilter.ISR NoFilter.init ⟨0, 0, 25, 50, 75, 0⟩
      = { buff_x := 100, buff_y := 200, buff_z := 300 } ∧
    NoFilter.ISR { buff_x := 100, buff_y := 200, buff_z := 300 } ⟨0, 0, 100, 125, 150, 0⟩
      = { buff_x := 400, buff_y := 500, buff_z := 600 } ∧
    (∀ n, n ≤ 6 →
      (NoFilter.exec (NoFilter.enter NoFilter.init)
        (([NoFilter.Event.irq ⟨0, 0, 25, 50, 75, 0⟩, NoFilter.Event.main,
          NoFilter.Event.irq ⟨0, 0, 100, 125, 150, 0⟩, NoFilter.Event.main,
          NoFilter.Event.main, NoFilter.Event.main]).take n)).I = true ∧
      (NoFilter.exec (NoFilter.enter NoFilter.init)
        (([NoFilter.Event.irq ⟨0, 0, 25, 50, 75, 0⟩, NoFilter.Event.main,
          NoFilter.Event.irq ⟨0, 0, 100, 125, 150, 0⟩, NoFilter.Event.main,
          NoFilter.Event.main, NoFilter.Event.main]).take n)).statics
        ≠ { buff_x := 100, buff_y := 500, buff_z := 600 }) := by
  refine ⟨by decide, by decide, by decide, ?_⟩
  decide

/-! ## Claim C12: a failed identification never starts the acquisition -/

theorem mainEvent_failInv {σ : Type} (isr : σ → Frame → σ) (s0 : σ) (idresp : Frame)
    (hid : Nunchuk_Init idresp = 0) (m : MainState σ) (e : MainEvent) (n : Nat)
    (h : FailInv s0 m) (hpc : m.pc = failPc n) :
    FailInv s0 (mainEvent isr idresp m e) ∧
    (mainEvent isr idresp m e).pc = failPc (n + (if e = MainEvent.main then 1 else 0)) := by
  obtain ⟨hst, hoc, hI, hpcs, hT, hU, hS, hN⟩ := h
  have hne : ¬ Nunchuk_Init idresp = 1 := by rw [hid]; decide
  cases e with
  | tick f =>
    have hs : mainEvent isr idresp m (MainEvent.tick f) = m := by
      simp [mainEvent, hoc]
    rw [hs]
    exact ⟨⟨hst, hoc, hI, hpcs, hT, hU, hS, hN⟩, by simpa using hpc⟩
  | main =>
    have hn : n = 0 ∨ n = 1 ∨ n = 2 ∨ 3 ≤ n := by omega
    rcases hn with h0 | h1 | h2 | h3
    · subst h0
      have hp : m.pc = MainPc.start := hpc
      simp only [mainEvent, mainStep, hp] at *
      refine ⟨⟨hst, hoc, fun _ => rfl, Or.inr (Or.inl rfl), ?_, ?_, ?_, ?_⟩, by decide⟩
      · simpa using hT
      · simpa using hU
      · simpa using hS
      · simpa [List.count_append] using hN
    · subst h1
      have hp : m.pc = MainPc.setup := hpc
      simp only [mainEvent, mainStep, hp] at *
      refine ⟨⟨hst, hoc, fun _ => hI (by decide), Or.inr (Or.inr (Or.inl rfl)), ?_, ?_, ?_,
        ?_⟩, by decide⟩
      · simpa using hT
      · simpa using hU
      · simpa using hS
      · simpa [List.count_append] using hN
    · subst h2
      have hp : m.pc = MainPc.identify := hpc
      simp only [mainEvent, mainStep, hp, if_neg hne] at *
      refine ⟨⟨hst, hoc, fun _ => hI (by decide), Or.inr (Or.inr (Or.inr rfl)), ?_, ?_, ?_,
        ?_⟩, by decide⟩
      · simpa using hT
      · simpa using hU
      · simpa using hS
      · simpa [List.count_append] using hN
    · have hp : m.pc = MainPc.failed := by
        rw [hpc]; unfold failPc
        rw [if_neg (by omega), if_neg (by omega), if_neg (by omega)]
      have hq : failPc (n + 1) = MainPc.failed := by
        unfold failPc
        rw [if_neg (by omega), if_neg (by omega), if_neg (by omega)]
      simp only [mainEvent, mainStep, hp, if_true] at *
      exact ⟨⟨hst, hoc, fun _ => hI (by decide), Or.inr (Or.inr (Or.inr rfl)), hT, hU, hS,
        by simpa using hN⟩, hq.symm⟩

theorem mainExec_failInv {σ : Type} (isr : σ → Frame → σ) (s0 : σ) (idresp : Frame)
    (hid : Nunchuk_Init idresp = 0) (events : List MainEvent) (m : MainState σ) (n : Nat)
    (h : FailInv s0 m) (hpc : m.pc = failPc n) :
    FailInv s0 (mainExec isr idresp m events) ∧
    (mainExec isr idresp m events).pc = failPc (n + events.count MainEvent.main) := by
  induction events generalizing m n with
  | nil => exact ⟨h, by simpa [mainExec] using hpc⟩
  | cons e es ih =>
    obtain ⟨h1, h2⟩ := mainEvent_failInv isr s0 idresp hid m e n h hpc
    have h3 := ih _ _ h1 h2
    have hc : n + (if e = MainEvent.main then 1 else 0) + es.count MainEvent.main
        = n + (e :: es).count MainEvent.main := by
      by_cases he : e = MainEvent.main
      · subst he; simp; omega
      · have : (e :: es).count MainEvent.main = es.count MainEvent.main :=
          List.count_cons_of_ne (Ne.symm he) es
        rw [this, if_neg he]; omega
    rw [hc] at h3
    exact h3

theorem boot_failInv {σ : Type} (s0 : σ) (I0 : Bool) :
    FailInv s0 (boot s0 I0) ∧ (boot s0 I0).pc = failPc 0 := by
  refine ⟨⟨rfl, rfl, fun h => absurd rfl h, Or.inl rfl, ?_, ?_, ?_, ?_⟩, rfl⟩ <;>
    simp [boot]

/-- A genuine nunchuk for contrast: after the six start-up steps of `main` a timer compare
match runs an acquisition cycle. -/
theorem genuine_nunchuk_acquires :
    (mainExec (MovingAverage.ISR M) ⟨0xFE, 0xFE, 0x9A, 0x1E, 0xFE, 0xFE⟩
        (boot (MovingAverage.init M) false)
        [MainEvent.main, MainEvent.main, MainEvent.main, MainEvent.main, MainEvent.main,
          MainEvent.main, MainEvent.tick ⟨0, 0, 25, 0, 0, 0⟩]).statics
      = MovingAverage.ISR M (MovingAverage.init M) ⟨0, 0, 25, 0, 0, 0⟩ := by
  decide

/-- C12: let `main` run interleaved with timer compare matches, for either variant (any
statics and interrupt routine).  When `Nunchuk_Init` returns 0, then after every event
sequence: the statics are the initial ones (no acquisition cycle has run), the timer compare
interrupt is disabled, the global interrupt flag is clear once `cli()` has been executed,
`Timer_Init`, `USB_Init` and `sei` have not been called, `Nunchuk_Init` has been called at
most once, `main` is in its error loop as soon as it has made three steps, and it never
leaves that loop. -/
theorem C12_counterfeit_never_acquires {σ : Type} (isr : σ → Frame → σ) (s0 : σ) (I0 : Bool)
    (idresp : Frame) (hid : Nunchuk_Init idresp = 0) (events : List MainEvent) :
    (mainExec isr idresp (boot s0 I0) events).statics = s0 ∧
    (mainExec isr idresp (boot s0 I0) events).OCIE1A = false ∧
    ((mainExec isr idresp (boot s0 I0) events).pc ≠ MainPc.start →
      (mainExec isr idresp (boot s0 I0) events).I = false) ∧
    MainCall.Timer_Init ∉ (mainExec isr idresp (boot s0 I0) events).calls ∧
    MainCall.USB_Init ∉ (mainExec isr idresp (boot s0 I0) events).calls ∧
    MainCall.sei ∉ (mainExec isr idresp (boot s0 I0) events).calls ∧
    (mainExec isr idresp (boot s0 I0) events).calls.count MainCall.Nunchuk_Init ≤ 1 ∧
    (3 ≤ events.count MainEvent.main →
      (mainExec isr idresp (boot s0 I0) events).pc = MainPc.failed) ∧
    ((mainExec isr idresp (boot s0 I0) events).pc = MainPc.failed →
      ∀ more : List MainEvent,
        (mainExec isr idresp (mainExec isr idresp (boot s0 I0) events) more).pc
          = MainPc.failed) := by
  obtain ⟨hb, hb0⟩ := boot_failInv s0 I0
  obtain ⟨hinv, hpc⟩ := mainExec_failInv isr s0 idresp hid events _ 0 hb hb0
  have hfail : ∀ n, 3 ≤ n → failPc n = MainPc.failed := by
    intro n hn
    unfold failPc
    rw [if_neg (by omega), if_neg (by omega), if_neg (by omega)]
  obtain ⟨hst, hoc, hI, _, hT, hU, hS, hN⟩ := hinv
  refine ⟨hst, hoc, hI, hT, hU, hS, ?_, ?_, ?_⟩
  · rw [hN]; split <;> omega
  · intro h3
    rw [hpc, Nat.zero_add]
    exact hfail _ h3
  · intro hf more
    have h3 : (mainExec isr idresp (boot s0 I0) events).pc = failPc 3 := by
      rw [hf]; rfl
    have h := (mainExec_failInv isr s0 idresp hid more _ 3
      ⟨hst, hoc, hI, Or.inr (Or.inr (Or.inr hf)), hT, hU, hS, hN⟩ h3).2
    rw [h]
    exact hfail _ (by omega)

/-- Witness for C12: the unencrypted identification bytes of a counterfeit nunchuk, the
moving-average variant with `M = 8`, and timer compare matches before, between and after the
steps of `main`: the buffers still hold their initial zeros. -/
theorem C12_counterfeit_never_acquires_witness :
    Nunchuk_Init ⟨0x00, 0x00, 0xA4, 0x20, 0x00, 0x00⟩ = 0 ∧
    (mainExec (MovingAverage.ISR M) ⟨0x00, 0x00, 0xA4, 0x20, 0x00, 0x00⟩
        (boot (MovingAverage.init M) true)
        [MainEvent.tick ⟨0, 0, 25, 0, 0, 0⟩, MainEvent.main, MainEvent.main,
          MainEvent.tick ⟨0, 0, 25, 0, 0, 0⟩, MainEvent.main, MainEvent.main,
          MainEvent.tick ⟨0, 0, 25, 0, 0, 0⟩]).statics = MovingAverage.init M :=
  ⟨by decide,
    (C12_counterfeit_never_acquires (MovingAverage.ISR M) (MovingAverage.init M) true
      ⟨0x00, 0x00, 0xA4, 0x20, 0x00, 0x00⟩ (by decide)
      [MainEvent.tick ⟨0, 0, 25, 0, 0, 0⟩, MainEvent.main, MainEvent.main,
        MainEvent.tick ⟨0, 0, 25, 0, 0, 0⟩, MainEvent.main, MainEvent.main,
        MainEvent.tick ⟨0, 0, 25, 0, 0, 0⟩]).1⟩

/-! ## Claims C13 and C14: bus traffic of the initialisation and of the acquisition cycle -/

theorem Nunchuk_Init_bus_ret (r : Frame) : (Nunchuk_Init_bus r).2 = Nunchuk_Init r := rfl

/-- C13: for every identification response, `Nunchuk_Init` issues exactly: write
[0x40, 0x00] to 0xA4, 500 us; write [0xFA], 500 us; read 6 bytes from 0xA5 (five acknowledged
reads, one not acknowledged); 500 us; write [0xF0, 0x55], 500 us; write [0xFB, 0x00], 500 us;
write [0x00], 500 us.  The trace is the same for all responses, whatever the returned
classification, and every stop condition is directly followed by a 500 us delay. -/
theorem C13_initialisation_protocol (r : Frame) :
    (Nunchuk_Init_bus r).1
      = writeTx 0xA4 [0x40, 0x00] ++ [BusOp.delay_us 500]
        ++ writeTx 0xA4 [0xFA] ++ [BusOp.delay_us 500]
        ++ readTx 0xA5 6 ++ [BusOp.delay_us 500]
        ++ writeTx 0xA4 [0xF0, 0x55] ++ [BusOp.delay_us 500]
        ++ writeTx 0xA4 [0xFB, 0x00] ++ [BusOp.delay_us 500]
        ++ writeTx 0xA4 [0x00] ++ [BusOp.delay_us 500] ∧
    (Nunchuk_Init_bus r).1
      = [BusOp.i2c_start_wait 0xA4, BusOp.i2c_write 0x40, BusOp.i2c_write 0x00,
          BusOp.i2c_stop, BusOp.delay_us 500,
          BusOp.i2c_start_wait 0xA4, BusOp.i2c_write 0xFA, BusOp.i2c_stop,
          BusOp.delay_us 500,
          BusOp.i2c_rep_start 0xA5, BusOp.i2c_readAck, BusOp.i2c_readAck, BusOp.i2c_readAck,
          BusOp.i2c_readAck, BusOp.i2c_readAck, BusOp.i2c_readNak, BusOp.i2c_stop,
          BusOp.delay_us 500,
          BusOp.i2c_start_wait 0xA4, BusOp.i2c_write 0xF0, BusOp.i2c_write 0x55,
          BusOp.i2c_stop, BusOp.delay_us 500,
          BusOp.i2c_start_wait 0xA4, BusOp.i2c_write 0xFB, BusOp.i2c_write 0x00,
          BusOp.i2c_stop, BusOp.delay_us 500,
          BusOp.i2c_start_wait 0xA4, BusOp.i2c_write 0x00, BusOp.i2c_stop,
          BusOp.delay_us 500] ∧
    (∀ q : Frame, (Nunchuk_Init_bus q).1 = (Nunchuk_Init_bus r).1) ∧
    (∀ i, i < (Nunchuk_Init_bus r).1.length →
      (Nunchuk_Init_bus r).1[i]? = some BusOp.i2c_stop →
      (Nunchuk_Init_bus r).1[i + 1]? = some (BusOp.delay_us 500)) ∧
    (Nunchuk_Init_bus r).2 = Nunchuk_Init r := by
  refine ⟨rfl, rfl, fun q => rfl, ?_, rfl⟩
  have hl : (Nunchuk_Init_bus r).1
      = (Nunchuk_Init_bus ⟨0, 0, 0, 0, 0, 0⟩).1 := rfl
  rw [hl]
  decide

/-- C14: for every frame, spike or not, and every state, one acquisition cycle issues
exactly: read 6 bytes from 0xA5 (five acknowledged reads, one not acknowledged), stop, a
15 us delay, write [0x00] to 0xA4, stop; one read transaction of six bytes followed by one
write transaction, the same in the moving-average and in the passthrough variant. -/
theorem C14_cycle_bus_shape (depth : Nat) (s : MovingAverage.State) (t : NoFilter.State)
    (f : Frame) :
    (MovingAverage.ISR_bus depth s f).2
      = readTx 0xA5 6 ++ [BusOp.delay_us 15] ++ writeTx 0xA4 [0x00] ∧
    (MovingAverage.ISR_bus depth s f).2
      = [BusOp.i2c_rep_start 0xA5, BusOp.i2c_readAck, BusOp.i2c_readAck, BusOp.i2c_readAck,
          BusOp.i2c_readAck, BusOp.i2c_readAck, BusOp.i2c_readNak, BusOp.i2c_stop,
          BusOp.delay_us 15,
          BusOp.i2c_start_wait 0xA4, BusOp.i2c_write 0x00, BusOp.i2c_stop] ∧
    (NoFilter.ISR_bus t f).2 = (MovingAverage.ISR_bus depth s f).2 ∧
    (∀ g : Frame, (MovingAverage.ISR_bus depth s g).2 = (MovingAverage.ISR_bus depth s f).2 ∧
      (NoFilter.ISR_bus t g).2 = (NoFilter.ISR_bus t f).2) ∧
    (MovingAverage.ISR_bus depth s f).1 = MovingAverage.ISR depth s f ∧
    (NoFilter.ISR_bus t f).1 = NoFilter.ISR t f :=
  ⟨rfl, rfl, rfl, fun _ => ⟨rfl, rfl⟩, rfl, rfl⟩

/-! ## Claim C15: what the reported state depends on -/

theorem unpack_of_sameAccel (f g : Frame) (h : sameAccel f g) :
    unpack_x f = unpack_x g ∧ unpack_y f = unpack_y g ∧ unpack_z f = unpack_z g := by
  obtain ⟨h2, h3, h4, h5⟩ := h
  rw [unpack_x_eq, unpack_y_eq, unpack_z_eq, unpack_x_eq, unpack_y_eq, unpack_z_eq, h2, h3, h4]
  omega

theorem MovingAverage.ISR_of_sameAccel (depth : Nat) (s : MovingAverage.State) (f g : Frame)
    (h : sameAccel f g) (hs : f.spike ↔ g.spike) :
    MovingAverage.ISR depth s f = MovingAverage.ISR depth s g := by
  obtain ⟨hx, hy, hz⟩ := unpack_of_sameAccel f g h
  by_cases hf : f.spike
  · have hg := hs.mp hf
    unfold Frame.spike at hf hg
    unfold MovingAverage.ISR
    rw [if_neg (not_not_intro hf), if_neg (not_not_intro hg)]
  · exact MovingAverage.ISR_congr depth s f g hf (fun hg => hf (hs.mpr hg)) hx hy hz

theorem NoFilter.passthrough_ISR_of_sameAccel (s : NoFilter.State) (f g : Frame)
    (h : sameAccel f g) (hs : f.spike ↔ g.spike) : NoFilter.ISR s f = NoFilter.ISR s g := by
  obtain ⟨hx, hy, hz⟩ := unpack_of_sameAccel f g h
  by_cases hf : f.spike
  · rw [NoFilter.ISR_spike s f hf, NoFilter.ISR_spike s g (hs.mp hf)]
  · rw [NoFilter.ISR_accepted s f hf, NoFilter.ISR_accepted s g (fun hg => hf (hs.mpr hg)),
      hx, hy, hz]

/-- C15 (as stated, refuted): the frames with bytes 4 and 5 equal to (0xFE, 0xFE) and to
(0xFE, 0xFC) agree on all accelerometer bits and differ only in button bit 1 of byte 5, yet the
first is a spike and leaves the statics at zero while the second is stored as (3, 3, 1019). -/
theorem C15_button_bits_reach_the_report :
    ¬ (∀ fs gs : List Frame, List.Forall₂ sameAccel fs gs →
        NoFilter.run NoFilter.init fs = NoFilter.run NoFilter.init gs ∧
        NoFilter.CALLBACK_HID_Device_CreateHIDReport (NoFilter.run NoFilter.init fs)
          = NoFilter.CALLBACK_HID_Device_CreateHIDReport (NoFilter.run NoFilter.init gs) ∧
        MovingAverage.run M (MovingAverage.init M) fs
          = MovingAverage.run M (MovingAverage.init M) gs ∧
        MovingAverage.CALLBACK_HID_Device_CreateHIDReport M
            (MovingAverage.run M (MovingAverage.init M) fs)
          = MovingAverage.CALLBACK_HID_Device_CreateHIDReport M
            (MovingAverage.run M (MovingAverage.init M) gs)) := by
  intro h
  have h1 := (h [⟨0, 0, 0, 0, 0xFE, 0xFE⟩] [⟨0, 0, 0, 0, 0xFE, 0xFC⟩]
    (List.Forall₂.cons (by decide) List.Forall₂.nil)).1
  revert h1
  decide

/-- C15 (amended): for two frame sequences of equal length that agree, frame by frame, on the
accelerometer bits and on whether the frame is a spike, the stored samples and every
generated report are identical, from any common statics, in both variants: the reported state
is a function of the accelerometer bits and of the spike test, which reads all of byte 5. -/
theorem C15_report_depends_on_accel_bits_and_spike_test (fs gs : List Frame)
    (h : List.Forall₂ (fun f g => sameAccel f g ∧ (f.spike ↔ g.spike)) fs gs) :
    (∀ s : NoFilter.State, NoFilter.run s fs = NoFilter.run s gs ∧
      NoFilter.CALLBACK_HID_Device_CreateHIDReport (NoFilter.run s fs)
        = NoFilter.CALLBACK_HID_Device_CreateHIDReport (NoFilter.run s gs)) ∧
    (∀ (depth : Nat) (s : MovingAverage.State),
      MovingAverage.run depth s fs = MovingAverage.run depth s gs ∧
      MovingAverage.CALLBACK_HID_Device_CreateHIDReport depth (MovingAverage.run depth s fs)
        = MovingAverage.CALLBACK_HID_Device_CreateHIDReport depth
            (MovingAverage.run depth s gs)) := by
  have hn : ∀ s : NoFilter.State, NoFilter.run s fs = NoFilter.run s gs := by
    induction h with
    | nil => intro s; rfl
    | cons hfg _ ih =>
      intro s
      show NoFilter.run (NoFilter.ISR s _) _ = NoFilter.run (NoFilter.ISR s _) _
      rw [NoFilter.passthrough_ISR_of_sameAccel s _ _ hfg.1 hfg.2]
      exact ih _
  have hm : ∀ (depth : Nat) (s : MovingAverage.State),
      MovingAverage.run depth s fs = MovingAverage.run depth s gs := by
    clear hn
    induction h with
    | nil => intro depth s; rfl
    | cons hfg _ ih =>
      intro depth s
      show MovingAverage.run depth (MovingAverage.ISR depth s _) _
        = MovingAverage.run depth (MovingAverage.ISR depth s _) _
      rw [MovingAverage.ISR_of_sameAccel depth s _ _ hfg.1 hfg.2]
      exact ih _ _
  exact ⟨fun s => ⟨hn s, by rw [hn s]⟩, fun depth s => ⟨hm depth s, by rw [hm depth s]⟩⟩

/-- Witness for C15: two accepted frames that differ in both joystick bytes and both button
bits. -/
theorem C15_report_depends_on_accel_bits_and_spike_test_witness :
    List.Forall₂ (fun f g => sameAccel f g ∧ (f.spike ↔ g.spike))
      [(⟨1, 2, 25, 26, 27, 0x6C⟩ : Frame)] [(⟨3, 4, 25, 26, 27, 0x6F⟩ : Frame)] ∧
    NoFilter.run NoFilter.init [⟨1, 2, 25, 26, 27, 0x6C⟩]
      = NoFilter.run NoFilter.init [⟨3, 4, 25, 26, 27, 0x6F⟩] :=
  ⟨List.Forall₂.cons (by decide) List.Forall₂.nil,
    ((C15_report_depends_on_accel_bits_and_spike_test [⟨1, 2, 25, 26, 27, 0x6C⟩]
      [⟨3, 4, 25, 26, 27, 0x6F⟩] (List.Forall₂.cons (by decide) List.Forall₂.nil)).1
        NoFilter.init).1⟩

/-! ## Claim C16: the fixed fields of the report -/

namespace MovingAverage

theorem stepMain_statics (depth : Nat) (m : Machine) :
    (stepMain depth m).statics = m.statics := by
  unfold stepMain
  split_ifs <;> rfl

theorem stepMain_pc (depth : Nat) (m : Machine) (h : m.pc ≤ 3 + 3 * depth) :
    (stepMain depth m).pc = min (m.pc + 1) (3 + 3 * depth) := by
  unfold stepMain
  split_ifs <;> first | omega | (simp only; omega)

theorem exec_main_only (depth : Nat) (n : Nat) (m : Machine) (h : m.pc ≤ 3 + 3 * depth) :
    (exec depth m (List.replicate n Event.main)).statics = m.statics ∧
    (exec depth m (List.replicate n Event.main)).pc = min (m.pc + n) (3 + 3 * depth) := by
  induction n generalizing m with
  | zero => exact ⟨rfl, by simp [exec]; omega⟩
  | succ n ih =>
    have hp := stepMain_pc depth m h
    have h1 := ih (stepMain depth m) (by rw [hp]; omega)
    rw [stepMain_statics, hp] at h1
    refine ⟨h1.1, ?_⟩
    show (exec depth (stepMain depth m) (List.replicate n Event.main)).pc = _
    rw [h1.2]
    omega

/-- Without interrupts the machine returns the report of the function and leaves the statics
as they were. -/
theorem exec_sequential (depth : Nat) (s : State) :
    (exec depth (enter s) (List.replicate (3 + 3 * depth) Event.main)).statics = s ∧
    (exec depth (enter s) (List.replicate (3 + 3 * depth) Event.main)).result
      = some (CALLBACK_HID_Device_CreateHIDReport depth s) := by
  have hrun := exec_main_only depth (3 + 3 * depth) (enter s) (by simp [enter])
  have hpc : (exec depth (enter s) (List.replicate (3 + 3 * depth) Event.main)).pc
      = 3 + 3 * depth := by
    rw [hrun.2]; simp [enter]
  refine ⟨hrun.1, ?_⟩
  have hrep : List.replicate (3 + 3 * depth) Event.main
      = [Event.main] ++ List.replicate (2 + 3 * depth) Event.main := by
    have : 3 + 3 * depth = (2 + 3 * depth) + 1 := by omega
    rw [this, List.replicate_succ]
    rfl
  rw [hrep, exec_append] at hpc ⊢
  have hph : Phase depth s (exec depth (enter s) [Event.main]) :=
    Or.inl ⟨Nat.le_refl 1, by show 1 ≤ 1 + 3 * depth; omega, rfl, rfl, rfl, rfl⟩
  rcases phase_exec depth s (List.replicate (2 + 3 * depth) Event.main) _ hph with h | h | h
  · omega
  · omega
  · exact h.2

theorem step_result_fields (depth : Nat) (m : Machine) (e : Event)
    (h : ∀ res, m.result = some res →
      res.JoystickReport.buttons = 0 ∧ res.ReportSize = 7 ∧ res.ret = true) :
    ∀ res, (step depth m e).result = some res →
      res.JoystickReport.buttons = 0 ∧ res.ReportSize = 7 ∧ res.ret = true := by
  cases e with
  | irq f =>
    intro res hres
    apply h
    by_cases hI : m.I = true
    · simpa only [step, if_pos hI] using hres
    · simpa only [step, if_neg hI] using hres
  | main =>
    intro res
    simp only [step, stepMain]
    split_ifs
    · exact h res
    · exact h res
    · exact h res
    · intro hres
      rw [← Option.some.inj hres]
      exact ⟨rfl, rfl, rfl⟩
    · exact h res

theorem exec_result_fields (depth : Nat) (es : List Event) (m : Machine)
    (h : ∀ res, m.result = some res →
      res.JoystickReport.buttons = 0 ∧ res.ReportSize = 7 ∧ res.ret = true) :
    ∀ res, (exec depth m es).result = some res →
      res.JoystickReport.buttons = 0 ∧ res.ReportSize = 7 ∧ res.ret = true := by
  induction es generalizing m with
  | nil => exact h
  | cons e es ih => exact ih _ (step_result_fields depth m e h)

end MovingAverage

namespace NoFilter

theorem passthrough_stepMain_statics (m : Machine) : (stepMain m).statics = m.statics := by
  unfold stepMain
  split_ifs <;> rfl

theorem passthrough_step_result_fields (m : Machine) (e : Event)
    (h : ∀ res, m.result = some res →
      res.JoystickReport.buttons = 0 ∧ res.ReportSize = 7 ∧ res.ret = true) :
    ∀ res, (step m e).result = some res →
      res.JoystickReport.buttons = 0 ∧ res.ReportSize = 7 ∧ res.ret = true := by
  cases e with
  | irq f =>
    intro res hres
    apply h
    by_cases hI : m.I = true
    · simpa only [step, if_pos hI] using hres
    · simpa only [step, if_neg hI] using hres
  | main =>
    intro res
    simp only [step, stepMain]
    split_ifs
    · exact h res
    · exact h res
    · exact h res
    · intro hres
      rw [← Option.some.inj hres]
      exact ⟨rfl, rfl, rfl⟩
    · exact h res

theorem passthrough_exec_result_fields (es : List Event) (m : Machine)
    (h : ∀ res, m.result = some res →
      res.JoystickReport.buttons = 0 ∧ res.ReportSize = 7 ∧ res.ret = true) :
    ∀ res, (exec m es).result = some res →
      res.JoystickReport.buttons = 0 ∧ res.ReportSize = 7 ∧ res.ret = true := by
  induction es generalizing m with
  | nil => exact h
  | cons e es ih => exact ih _ (passthrough_step_result_fields m e h)

end NoFilter

/-- C16: in both variants and for every buffer state the report generator sets `buttons` to
0, sets `*ReportSize` to the size of the report structure (three 16-bit fields and one byte,
7 bytes) and returns true; none of its steps changes the sample buffers; run without
interruption it returns exactly the report of the function and leaves the statics as they
were; and under every interleaving with the timer interrupt a returned report has these
fixed fields. -/
theorem C16_fixed_report_fields (depth : Nat) (s : MovingAverage.State)
    (t : NoFilter.State) :
    ((MovingAverage.CALLBACK_HID_Device_CreateHIDReport depth s).JoystickReport.buttons = 0 ∧
      (MovingAverage.CALLBACK_HID_Device_CreateHIDReport depth s).ReportSize = 2 + 2 + 2 + 1 ∧
      (MovingAverage.CALLBACK_HID_Device_CreateHIDReport depth s).ret = true) ∧
    ((NoFilter.CALLBACK_HID_Device_CreateHIDReport t).JoystickReport.buttons = 0 ∧
      (NoFilter.CALLBACK_HID_Device_CreateHIDReport t).ReportSize = 2 + 2 + 2 + 1 ∧
      (NoFilter.CALLBACK_HID_Device_CreateHIDReport t).ret = true) ∧
    (∀ m : MovingAverage.Machine, (MovingAverage.stepMain depth m).statics = m.statics) ∧
    (∀ m : NoFilter.Machine, (NoFilter.stepMain m).statics = m.statics) ∧
    ((MovingAverage.exec depth (MovingAverage.enter s)
        (List.replicate (3 + 3 * depth) MovingAverage.Event.main)).statics = s ∧
      (MovingAverage.exec depth (MovingAverage.enter s)
        (List.replicate (3 + 3 * depth) MovingAverage.Event.main)).result
        = some (MovingAverage.CALLBACK_HID_Device_CreateHIDReport depth s)) ∧
    ((NoFilter.exec (NoFilter.enter t) (List.replicate 4 NoFilter.Event.main)).statics = t ∧
      (NoFilter.exec (NoFilter.enter t) (List.replicate 4 NoFilter.Event.main)).result
        = some (NoFilter.CALLBACK_HID_Device_CreateHIDReport t)) ∧
    (∀ (events : List MovingAverage.Event) (res : HIDReportResult),
      (MovingAverage.exec depth (MovingAverage.enter s) events).result = some res →
      res.JoystickReport.buttons = 0 ∧ res.ReportSize = 7 ∧ res.ret = true) ∧
    (∀ (events : List NoFilter.Event) (res : HIDReportResult),
      (NoFilter.exec (NoFilter.enter t) events).result = some res →
      res.JoystickReport.buttons = 0 ∧ res.ReportSize = 7 ∧ res.ret = true) := by
  refine ⟨⟨rfl, rfl, rfl⟩, ⟨rfl, rfl, rfl⟩, MovingAverage.stepMain_statics depth,
    NoFilter.passthrough_stepMain_statics, MovingAverage.exec_sequential depth s,
    ⟨rfl, rfl⟩, ?_, ?_⟩
  · exact fun events => MovingAverage.exec_result_fields depth events _
      (fun res h => absurd h (by simp [MovingAverage.enter]))
  · exact fun events => NoFilter.passthrough_exec_result_fields events _
      (fun res h => absurd h (by simp [NoFilter.enter]))

/-! ## Claim C17: steady-state gain of the coefficient table -/

/-- C17 (as stated, refuted): read as exact rationals, the feed-forward coefficients add up
to 0.4367052 and the feedback coefficients to 0.438894; the two sums differ. -/
theorem C17_coefficient_sums_differ : ¬ (lpf.b.sum = lpf.a.sum) := by
  norm_num [lpf.b, lpf.a]

/-- C17 (amended): the table has 5 feed-forward and 5 feedback coefficients with `a[0] = 1`;
read as exact rationals, `b` adds up to 0.4367052 and `a` to 0.438894, so the steady-state
gain `G = sum b / sum a` lies strictly between 0.995 and 0.9951; for every `V` the constant
input `V` with constant output `G * V` satisfies the difference equation
`a[0]*y[n] = sum_k b[k]*x[n-k] - sum_(k>=1) a[k]*y[n-k]`, and the constant output `V` itself
satisfies it only for `V = 0`. -/
theorem C17_steady_state_gain (V : ℚ) :
    lpf.N = 5 ∧ lpf.b.length = lpf.N ∧ lpf.a.length = lpf.N ∧ lpf.a.head? = some 1 ∧
    lpf.b.sum = 0.4367052 ∧ lpf.a.sum = 0.438894 ∧
    0.995 < lpf.b.sum / lpf.a.sum ∧ lpf.b.sum / lpf.a.sum < 0.9951 ∧
    1 * (lpf.b.sum / lpf.a.sum * V)
      = (lpf.b.map (fun c => c * V)).sum
        - (lpf.a.tail.map (fun c => c * (lpf.b.sum / lpf.a.sum * V))).sum ∧
    (1 * V = (lpf.b.map (fun c => c * V)).sum - (lpf.a.tail.map (fun c => c * V)).sum
      ↔ V = 0) := by
  have hb : lpf.b.sum = 0.4367052 := by norm_num [lpf.b]
  have ha : lpf.a.sum = 0.438894 := by norm_num [lpf.a]
  refine ⟨rfl, rfl, rfl, rfl, hb, ha, ?_, ?_, ?_, ?_⟩
  · rw [hb, ha]; norm_num
  · rw [hb, ha]; norm_num
  · rw [hb, ha]
    simp only [lpf.b, lpf.a, List.map_cons, List.map_nil, List.tail_cons, List.sum_cons,
      List.sum_nil]
    ring
  · simp only [lpf.b, lpf.a, List.map_cons, List.map_nil, List.tail_cons, List.sum_cons,
      List.sum_nil]
    constructor
    · intro h
      have h2 : (0.438894 - 0.4367052 : ℚ) * V = 0 := by linear_combination h
      rcases mul_eq_zero.mp h2 with h3 | h3
      · norm_num at h3
      · exact h3
    · intro h
      rw [h]; ring

/-! ## Claim C18: the buffers hold the last `M` valid-or-carried samples -/

namespace MovingAverage

theorem carried_snoc (val : Frame → Nat) (prev : Nat) (fs : List Frame) (f : Frame) :
    carried val prev (fs ++ [f])
      = carried val prev fs
        ++ [if f.spike then (carried val prev fs).getLastD prev else val f] := by
  induction fs generalizing prev with
  | nil => rfl
  | cons g fs ih =>
    show carried val prev (g :: (fs ++ [f])) = _
    simp only [carried, ih, List.cons_append, List.getLastD_cons]

/-- From zeroed buffers and after at least `depth` frames, the window of one axis is the list
of the last `depth` valid-or-carried samples. -/
theorem window_run_full {depth : Nat} (val : Frame → Nat) (hval : ∀ f, val f ≤ 1023)
    (h0 : 0 < depth) (h256 : depth ≤ 256) (fs : List Frame) (hn : depth ≤ fs.length) :
    window (fs.foldl (ringStep depth val) (0, List.replicate depth 0))
      = (carried val 0 fs).drop (fs.length - depth) := by
  have hu : (fun f => u16 (val f)) = val := funext fun f => u16_of_le (hval f)
  rw [window_foldl val h256 fs _ h0 (List.length_replicate _ _), window_init, hu]
  have hg : (List.replicate depth 0).getD 0 0 = 0 := by
    cases depth <;> rfl
  simp only [hg]
  rw [List.drop_append_eq_append_drop, List.drop_replicate, List.length_replicate,
    Nat.sub_eq_zero_of_le hn]
  rfl

theorem buffer_perm_window (r : Nat × List Nat) : List.Perm r.2 (window r) :=
  (List.rotate_perm r.2 (r.1 + 1)).symm

end MovingAverage

/-- C18: with `s_0 = 0` and `s_j` the unpacked value of frame `j`, or `s_(j-1)` when frame
`j` is a spike (the list `carried`), after `n ≥ M` frames from zeroed buffers (depth
`M = 2^k`, `2 ≤ M ≤ 64`, any mix of spikes) the slots of each axis buffer are a permutation
of `s_(n-M+1), ..., s_n` and the report is `floor((s_(n-M+1) + ... + s_n + M/2) / M)` for
each axis. -/
theorem C18_buffers_hold_last_samples {k : Nat} (h1 : 1 ≤ k) (hk : k ≤ 6)
    (frames : List Frame) (hn : 2 ^ k ≤ frames.length) :
    (∀ (val : Frame → Nat) (prev : Nat) (fs : List Frame) (f : Frame),
      MovingAverage.carried val prev [] = [] ∧
      MovingAverage.carried val prev (fs ++ [f])
        = MovingAverage.carried val prev fs
          ++ [if f.spike then (MovingAverage.carried val prev fs).getLastD prev else val f]) ∧
    (((MovingAverage.carried unpack_x 0 frames).drop (frames.length - 2 ^ k)).length = 2 ^ k ∧
      ((MovingAverage.carried unpack_y 0 frames).drop (frames.length - 2 ^ k)).length = 2 ^ k ∧
      ((MovingAverage.carried unpack_z 0 frames).drop (frames.length - 2 ^ k)).length
        = 2 ^ k) ∧
    List.Perm (MovingAverage.run (2 ^ k) (MovingAverage.init (2 ^ k)) frames).buff_x
      ((MovingAverage.carried unpack_x 0 frames).drop (frames.length - 2 ^ k)) ∧
    List.Perm (MovingAverage.run (2 ^ k) (MovingAverage.init (2 ^ k)) frames).buff_y
      ((MovingAverage.carried unpack_y 0 frames).drop (frames.length - 2 ^ k)) ∧
    List.Perm (MovingAverage.run (2 ^ k) (MovingAverage.init (2 ^ k)) frames).buff_z
      ((MovingAverage.carried unpack_z 0 frames).drop (frames.length - 2 ^ k)) ∧
    (MovingAverage.CALLBACK_HID_Device_CreateHIDReport (2 ^ k)
        (MovingAverage.run (2 ^ k) (MovingAverage.init (2 ^ k)) frames)).JoystickReport
      = { ax := (((MovingAverage.carried unpack_x 0 frames).drop
                    (frames.length - 2 ^ k)).sum + 2 ^ k / 2) / 2 ^ k
          ay := (((MovingAverage.carried unpack_y 0 frames).drop
                    (frames.length - 2 ^ k)).sum + 2 ^ k / 2) / 2 ^ k
          az := (((MovingAverage.carried unpack_z 0 frames).drop
                    (frames.length - 2 ^ k)).sum + 2 ^ k / 2) / 2 ^ k
          buttons := 0 } := by
  have hp : 2 ^ k ≤ 256 := by
    calc 2 ^ k ≤ 2 ^ 6 := Nat.pow_le_pow_right (by decide) hk
      _ ≤ 256 := by norm_num
  have h0 : 0 < 2 ^ k := Nat.pow_pos (by decide)
  have hlen : ∀ val : Frame → Nat,
      ((MovingAverage.carried val 0 frames).drop (frames.length - 2 ^ k)).length = 2 ^ k := by
    intro val
    rw [List.length_drop, MovingAverage.carried_length]
    omega
  have hperm : ∀ (val : Frame → Nat), (∀ f, val f ≤ 1023) →
      List.Perm (frames.foldl (MovingAverage.ringStep (2 ^ k) val)
          (0, List.replicate (2 ^ k) 0)).2
        ((MovingAverage.carried val 0 frames).drop (frames.length - 2 ^ k)) := by
    intro val hval
    rw [← MovingAverage.window_run_full val hval h0 hp frames hn]
    exact MovingAverage.buffer_perm_window _
  have px := hperm unpack_x unpack_x_le
  have py := hperm unpack_y unpack_y_le
  have pz := hperm unpack_z unpack_z_le
  have ex := MovingAverage.run_x (2 ^ k) frames (MovingAverage.init (2 ^ k))
  have ey := MovingAverage.run_y (2 ^ k) frames (MovingAverage.init (2 ^ k))
  have ez := MovingAverage.run_z (2 ^ k) frames (MovingAverage.init (2 ^ k))
  have ix : ((MovingAverage.init (2 ^ k)).cbi, (MovingAverage.init (2 ^ k)).buff_x)
      = (0, List.replicate (2 ^ k) 0) := rfl
  have iy : ((MovingAverage.init (2 ^ k)).cbi, (MovingAverage.init (2 ^ k)).buff_y)
      = (0, List.replicate (2 ^ k) 0) := rfl
  have iz : ((MovingAverage.init (2 ^ k)).cbi, (MovingAverage.init (2 ^ k)).buff_z)
      = (0, List.replicate (2 ^ k) 0) := rfl
  rw [ix] at ex
  rw [iy] at ey
  rw [iz] at ez
  rw [← ex] at px
  rw [← ey] at py
  rw [← ez] at pz
  exact ⟨fun val prev fs f => ⟨rfl, MovingAverage.carried_snoc val prev fs f⟩,
    ⟨hlen _, hlen _, hlen _⟩, px, py, pz, MovingAverage.report_run h1 hk frames⟩

/-- Witness for C18: depth 2 and three frames, the last one a spike: the buffer holds the
sample 200 twice and the report is 200. -/
theorem C18_buffers_hold_last_samples_witness :
    1 ≤ 1 ∧ 1 ≤ 6 ∧
    2 ^ 1 ≤ ([⟨0, 0, 25, 0, 0, 0⟩, ⟨0, 0, 50, 0, 0, 0⟩, ⟨0, 0, 0, 0, 0xFE, 0xFE⟩]
      : List Frame).length ∧
    (MovingAverage.CALLBACK_HID_Device_CreateHIDReport (2 ^ 1)
        (MovingAverage.run (2 ^ 1) (MovingAverage.init (2 ^ 1))
          [⟨0, 0, 25, 0, 0, 0⟩, ⟨0, 0, 50, 0, 0, 0⟩,
            ⟨0, 0, 0, 0, 0xFE, 0xFE⟩])).JoystickReport
      = { ax := 200, ay := 0, az := 0, buttons := 0 } :=
  ⟨by decide, by decide, by decide,
    (@C18_buffers_hold_last_samples 1 (by decide) (by decide)
      [⟨0, 0, 25, 0, 0, 0⟩, ⟨0, 0, 50, 0, 0, 0⟩, ⟨0, 0, 0, 0, 0xFE, 0xFE⟩]
      (by decide)).2.2.2.2.2⟩

/-! ## Claims C19 and C20: the write cursor and the single written slot -/

namespace MovingAverage

theorem run_cbi {depth : Nat} (h256 : depth ≤ 256) (fs : List Frame) (s : State)
    (hc : s.cbi < depth) :
    (run depth s fs).cbi = (s.cbi + fs.length) % depth := by
  induction fs generalizing s with
  | nil => exact (Nat.mod_eq_of_lt hc).symm
  | cons f fs ih =>
    have h1 : (ISR depth s f).cbi = (s.cbi + 1) % depth := by
      rw [ISR_cbi, next_cbi_eq h256 hc]
    have h2 : (ISR depth s f).cbi < depth := by
      rw [h1]; exact Nat.mod_lt _ (by omega)
    show (run depth (ISR depth s f) fs).cbi = _
    rw [ih _ h2, h1, Nat.mod_add_mod, List.length_cons]
    congr 1
    omega

theorem cursors_eq {depth : Nat} (h256 : depth ≤ 256) (fs : List Frame) (s : State)
    (hc : s.cbi < depth) :
    cursors depth s fs = (List.range fs.length).map (fun j => (j + (s.cbi + 1)) % depth) := by
  induction fs generalizing s with
  | nil => rfl
  | cons f fs ih =>
    have h1 : (ISR depth s f).cbi = (s.cbi + 1) % depth := by
      rw [ISR_cbi, next_cbi_eq h256 hc]
    have h2 : (ISR depth s f).cbi < depth := by
      rw [h1]; exact Nat.mod_lt _ (by omega)
    rw [cursors, ih _ h2, h1, List.length_cons, List.range_succ_eq_map, List.map_cons,
      List.map_map]
    congr 1
    · rw [Nat.zero_add]
    · apply List.map_congr_left
      intro j _
      show (j + ((s.cbi + 1) % depth + 1)) % depth = (j + 1 + (s.cbi + 1)) % depth
      have e1 : j + ((s.cbi + 1) % depth + 1) = (s.cbi + 1) % depth + (j + 1) := by omega
      have e2 : j + 1 + (s.cbi + 1) = (s.cbi + 1) + (j + 1) := by omega
      rw [e1, e2, Nat.mod_add_mod]

theorem range_rotate (d c : Nat) :
    (List.range d).rotate c = (List.range d).map (fun j => (j + c) % d) := by
  apply List.ext_getElem
  · simp
  · intro n h1 h2
    rw [List.getElem_rotate, List.getElem_map, List.getElem_range, List.getElem_range,
      List.length_range]

theorem cursors_perm {depth : Nat} (h256 : depth ≤ 256) (fs : List Frame) (s : State)
    (hc : s.cbi < depth) (hl : fs.length = depth) :
    List.Perm (cursors depth s fs) (List.range depth) := by
  rw [cursors_eq h256 fs s hc, hl, ← range_rotate]
  exact List.rotate_perm _ _

theorem ISR_frame (depth : Nat) (s : State) (f : Frame) (j : Nat)
    (hj : j ≠ (ISR depth s f).cbi) :
    (ISR depth s f).buff_x.getD j 0 = s.buff_x.getD j 0 ∧
    (ISR depth s f).buff_y.getD j 0 = s.buff_y.getD j 0 ∧
    (ISR depth s f).buff_z.getD j 0 = s.buff_z.getD j 0 := by
  rw [ISR_cbi] at hj
  have ex := congrArg Prod.snd (ISR_x depth s f)
  have ey := congrArg Prod.snd (ISR_y depth s f)
  have ez := congrArg Prod.snd (ISR_z depth s f)
  simp only [ringStep] at ex ey ez
  rw [ex, ey, ez]
  simp only [List.getD_eq_getElem?_getD, List.getElem?_set_ne (Ne.symm hj)]
  exact ⟨trivial, trivial, trivial⟩

end MovingAverage

/-- C19: the cursor `cbi` starts at 0; in every state `s` reached from the zeroed statics it
satisfies `cbi ≤ M - 1` (it is the number of cycles so far modulo `M`); every acquisition
cycle, spike or not, replaces it by `(cbi + 1) mod M`; after exactly `M` further cycles it
has its old value again and the slots written by these cycles are a permutation of
`0, ..., M-1`; and both the advanced cursor used for the write and the old cursor used for
the carry-forward read index a slot of each buffer. -/
theorem C19_write_cursor {depth : Nat} (h0 : 0 < depth) (h256 : depth ≤ 256)
    (frames : List Frame) (s : MovingAverage.State)
    (hs : s = MovingAverage.run depth (MovingAverage.init depth) frames) :
    (MovingAverage.init depth).cbi = 0 ∧
    s.cbi ≤ depth - 1 ∧
    s.cbi = frames.length % depth ∧
    (∀ f : Frame, (MovingAverage.ISR depth s f).cbi = (s.cbi + 1) % depth) ∧
    (∀ fs : List Frame, fs.length = depth →
      (MovingAverage.run depth s fs).cbi = s.cbi ∧
      List.Perm (MovingAverage.cursors depth s fs) (List.range depth)) ∧
    (∀ f : Frame,
      (MovingAverage.ISR depth s f).cbi < s.buff_x.length ∧
      (MovingAverage.ISR depth s f).cbi < s.buff_y.length ∧
      (MovingAverage.ISR depth s f).cbi < s.buff_z.length) ∧
    (s.cbi < s.buff_x.length ∧ s.cbi < s.buff_y.length ∧ s.cbi < s.buff_z.length) := by
  have hwf : MovingAverage.WF depth s :=
    hs ▸ MovingAverage.run_wf h256 frames _ (MovingAverage.init_wf h0)
  obtain ⟨hc, hx, hy, hz⟩ := hwf
  have hstep : ∀ f : Frame, (MovingAverage.ISR depth s f).cbi = (s.cbi + 1) % depth := by
    intro f
    rw [MovingAverage.ISR_cbi, MovingAverage.next_cbi_eq h256 hc]
  refine ⟨rfl, by omega, ?_, hstep, ?_, ?_, by rw [hx, hy, hz]; exact ⟨hc, hc, hc⟩⟩
  · have h := MovingAverage.run_cbi h256 frames (MovingAverage.init depth) h0
    rw [← hs] at h
    rw [h]
    show (0 + frames.length) % depth = _
    rw [Nat.zero_add]
  · intro fs hl
    refine ⟨?_, MovingAverage.cursors_perm h256 fs s hc hl⟩
    rw [MovingAverage.run_cbi h256 fs s hc, hl, Nat.add_mod_right, Nat.mod_eq_of_lt hc]
  · intro f
    have hlt : (MovingAverage.ISR depth s f).cbi < depth := by
      rw [hstep f]; exact Nat.mod_lt _ h0
    rw [hx, hy, hz]
    exact ⟨hlt, hlt, hlt⟩

/-- Witness for C19: `M = 8`, the state after three frames has cursor 3, and eight further
cycles write the slots 4, 5, 6, 7, 0, 1, 2, 3. -/
theorem C19_write_cursor_witness :
    0 < M ∧ M ≤ 256 ∧
    MovingAverage.cursors M
        (MovingAverage.run M (MovingAverage.init M)
          [⟨0, 0, 1, 0, 0, 0⟩, ⟨0, 0, 0, 0, 0xFE, 0xFE⟩, ⟨0, 0, 3, 0, 0, 0⟩])
        (List.replicate 8 ⟨0, 0, 0, 0, 0xFE, 0xFE⟩)
      = [4, 5, 6, 7, 0, 1, 2, 3] ∧
    List.Perm
      (MovingAverage.cursors M
        (MovingAverage.run M (MovingAverage.init M)
          [⟨0, 0, 1, 0, 0, 0⟩, ⟨0, 0, 0, 0, 0xFE, 0xFE⟩, ⟨0, 0, 3, 0, 0, 0⟩])
        (List.replicate 8 ⟨0, 0, 0, 0, 0xFE, 0xFE⟩))
      (List.range M) :=
  ⟨by decide, by decide, by decide,
    ((@C19_write_cursor M (by decide) (by decide)
      [⟨0, 0, 1, 0, 0, 0⟩, ⟨0, 0, 0, 0, 0xFE, 0xFE⟩, ⟨0, 0, 3, 0, 0, 0⟩] _ rfl).2.2.2.2.1
        (List.replicate 8 ⟨0, 0, 0, 0, 0xFE, 0xFE⟩) (by decide)).2⟩

/-- C20: for every well-formed state and every frame, accepted or spike, one acquisition
cycle of the moving-average variant leaves every slot other than the one at the advanced
cursor unchanged in `buff_x`, `buff_y` and `buff_z`; the buffers keep their `depth` slots
and the advanced cursor indexes one of them. -/
theorem C20_single_slot_written {depth : Nat} (h256 : depth ≤ 256) (s : MovingAverage.State)
    (hs : MovingAverage.WF depth s) (f : Frame) :
    (∀ j : Nat, j ≠ (MovingAverage.ISR depth s f).cbi →
      (MovingAverage.ISR depth s f).buff_x.getD j 0 = s.buff_x.getD j 0 ∧
      (MovingAverage.ISR depth s f).buff_y.getD j 0 = s.buff_y.getD j 0 ∧
      (MovingAverage.ISR depth s f).buff_z.getD j 0 = s.buff_z.getD j 0) ∧
    (MovingAverage.ISR depth s f).cbi < depth ∧
    (MovingAverage.ISR depth s f).buff_x.length = depth ∧
    (MovingAverage.ISR depth s f).buff_y.length = depth ∧
    (MovingAverage.ISR depth s f).buff_z.length = depth ∧
    (∃ vx vy vz : Nat,
      (MovingAverage.ISR depth s f).buff_x = s.buff_x.set (MovingAverage.ISR depth s f).cbi vx ∧
      (MovingAverage.ISR depth s f).buff_y = s.buff_y.set (MovingAverage.ISR depth s f).cbi vy ∧
      (MovingAverage.ISR depth s f).buff_z
        = s.buff_z.set (MovingAverage.ISR depth s f).cbi vz) := by
  obtain ⟨hc, hx, hy, hz⟩ := MovingAverage.ISR_wf h256 s f hs
  refine ⟨fun j hj => MovingAverage.ISR_frame depth s f j hj, hc, hx, hy, hz, ?_⟩
  have ex := congrArg Prod.snd (MovingAverage.ISR_x depth s f)
  have ey := congrArg Prod.snd (MovingAverage.ISR_y depth s f)
  have ez := congrArg Prod.snd (MovingAverage.ISR_z depth s f)
  simp only [MovingAverage.ringStep] at ex ey ez
  rw [MovingAverage.ISR_cbi]
  exact ⟨_, _, _, ex, ey, ez⟩

/-- Witness for C20: `M = 8`, zeroed statics and an accepted frame: slot 0 keeps its zero
while slot 1 is written. -/
theorem C20_single_slot_written_witness :
    M ≤ 256 ∧ MovingAverage.WF M (MovingAverage.init M) ∧
    (MovingAverage.ISR M (MovingAverage.init M) ⟨0, 0, 25, 26, 27, 0⟩).buff_x.getD 0 0
      = (MovingAverage.init M).buff_x.getD 0 0 :=
  ⟨by decide, by decide,
    ((@C20_single_slot_written M (by decide) (MovingAverage.init M) (by decide)
      ⟨0, 0, 25, 26, 27, 0⟩).1 0 (by decide)).1⟩

/-! ## Claims C21 and C22: timer values and the macro `LOG2F` -/

/-- C21: with the 16 MHz clock and the period taken as `OCR1A / F_CPU`, as in the comments of
`Timer_Init`, the configured compare values are 18384 ticks = 1149 us with 870 whole samples
per second for `M = 8`, 12000 ticks = 750 us with 1333 whole samples per second for `M = 16`,
and 64000 ticks = 4000 us, exactly 250 samples per second and twice the 125 Hz USB polling
frequency, for the passthrough variant; each value fits the 16-bit compare register and each
rate is at least 120 samples per second. -/
theorem C21_timer_periods_and_rates (t : Timer1) :
    ((MovingAverage.Timer_Init 8 t).OCR1A = 18384 ∧
      (MovingAverage.Timer_Init 8 t).OCR1A * 1000000 = 1149 * F_CPU ∧
      F_CPU / (MovingAverage.Timer_Init 8 t).OCR1A = 870) ∧
    ((MovingAverage.Timer_Init 16 t).OCR1A = 12000 ∧
      (MovingAverage.Timer_Init 16 t).OCR1A * 1000000 = 750 * F_CPU ∧
      F_CPU / (MovingAverage.Timer_Init 16 t).OCR1A = 1333) ∧
    ((NoFilter.Timer_Init t).OCR1A = 64000 ∧
      (NoFilter.Timer_Init t).OCR1A * 1000000 = 4000 * F_CPU ∧
      250 * (NoFilter.Timer_Init t).OCR1A = F_CPU ∧
      F_CPU / (NoFilter.Timer_Init t).OCR1A = 2 * 125) ∧
    ((MovingAverage.Timer_Init M t).OCR1A = 18384 ∧
      (MovingAverage.Timer_Init M t).OCIE1A = true ∧ (NoFilter.Timer_Init t).OCIE1A = true) ∧
    ((MovingAverage.Timer_Init 8 t).OCR1A ≤ 65535 ∧
      (MovingAverage.Timer_Init 16 t).OCR1A ≤ 65535 ∧
      (NoFilter.Timer_Init t).OCR1A ≤ 65535) ∧
    (120 * (MovingAverage.Timer_Init 8 t).OCR1A ≤ F_CPU ∧
      120 * (MovingAverage.Timer_Init 16 t).OCR1A ≤ F_CPU ∧
      120 * (NoFilter.Timer_Init t).OCR1A ≤ F_CPU) ∧
    (120 ≤ F_CPU / (MovingAverage.Timer_Init 8 t).OCR1A ∧
      120 ≤ F_CPU / (MovingAverage.Timer_Init 16 t).OCR1A ∧
      120 ≤ F_CPU / (NoFilter.Timer_Init t).OCR1A) := by
  have h8 : (MovingAverage.Timer_Init 8 t).OCR1A = 18384 := rfl
  have h16 : (MovingAverage.Timer_Init 16 t).OCR1A = 12000 := rfl
  have hM : (MovingAverage.Timer_Init M t).OCR1A = 18384 := rfl
  have hn : (NoFilter.Timer_Init t).OCR1A = 64000 := rfl
  rw [h8, h16, hM, hn]
  refine ⟨⟨rfl, ?_, ?_⟩, ⟨rfl, ?_, ?_⟩, ⟨rfl, ?_, ?_, ?_⟩, ⟨rfl, rfl, rfl⟩, ?_, ?_, ?_⟩ <;>
    decide

theorem LOG2F_eq_log {x c : Nat} (hc : c ≤ 6) (h1 : 2 ^ c ≤ x) (h2 : x < 2 ^ (c + 1)) :
    LOG2F x = c ∧ Nat.log 2 x = c := by
  refine ⟨?_, Nat.log_eq_of_pow_le_of_lt_pow h1 h2⟩
  unfold LOG2F
  interval_cases c <;> simp only [ge_iff_le] <;> norm_num at h1 h2 <;>
    split_ifs <;> omega

/-- C22: `LOG2F` inverts the powers of two from 1 to 64; it is the floor of the base-2
logarithm for every `x` from 1 to 127; for every `x ≥ 128` it is 6, below the floor of the
logarithm; and for the depths 8 and 16 the rounding constant `1 << (LOG2F(M) - 1)` is
`M / 2`. -/
theorem C22_LOG2F_is_floor_log2 :
    (∀ k : Nat, k ≤ 6 → LOG2F (2 ^ k) = k ∧ 2 ^ LOG2F (2 ^ k) = 2 ^ k) ∧
    (∀ m : Nat, 1 ≤ m → m ≤ 64 → (∃ k : Nat, m = 2 ^ k) → 2 ^ LOG2F m = m) ∧
    (∀ x : Nat, 1 ≤ x → x ≤ 127 → LOG2F x = Nat.log 2 x) ∧
    (∀ x : Nat, 128 ≤ x → LOG2F x = 6 ∧ LOG2F x < Nat.log 2 x) ∧
    (BV (LOG2F 8 - 1) = 8 / 2 ∧ BV (LOG2F 16 - 1) = 16 / 2 ∧ BV (LOG2F M - 1) = M / 2) := by
  have hpow : ∀ k : Nat, k ≤ 6 → LOG2F (2 ^ k) = k :=
    fun k hk => MovingAverage.LOG2F_pow hk
  refine ⟨fun k hk => ⟨hpow k hk, by rw [hpow k hk]⟩, ?_, ?_, ?_, by decide⟩
  · rintro m _ h64 ⟨k, rfl⟩
    have hk : k ≤ 6 := by
      by_contra hlt
      have : 2 ^ 7 ≤ 2 ^ k := Nat.pow_le_pow_right (by decide) (by omega)
      omega
    rw [hpow k hk]
  · intro x h1 h127
    have hx : (2 ^ 0 ≤ x ∧ x < 2 ^ 1) ∨ (2 ^ 1 ≤ x ∧ x < 2 ^ 2) ∨ (2 ^ 2 ≤ x ∧ x < 2 ^ 3) ∨
        (2 ^ 3 ≤ x ∧ x < 2 ^ 4) ∨ (2 ^ 4 ≤ x ∧ x < 2 ^ 5) ∨ (2 ^ 5 ≤ x ∧ x < 2 ^ 6) ∨
        (2 ^ 6 ≤ x ∧ x < 2 ^ 7) := by
      norm_num
      omega
    rcases hx with h | h | h | h | h | h | h
    · obtain ⟨a, b⟩ := LOG2F_eq_log (c := 0) (by decide) h.1 h.2; rw [a, b]
    · obtain ⟨a, b⟩ := LOG2F_eq_log (c := 1) (by decide) h.1 h.2; rw [a, b]
    · obtain ⟨a, b⟩ := LOG2F_eq_log (c := 2) (by decide) h.1 h.2; rw [a, b]
    · obtain ⟨a, b⟩ := LOG2F_eq_log (c := 3) (by decide) h.1 h.2; rw [a, b]
    · obtain ⟨a, b⟩ := LOG2F_eq_log (c := 4) (by decide) h.1 h.2; rw [a, b]
    · obtain ⟨a, b⟩ := LOG2F_eq_log (c := 5) (by decide) h.1 h.2; rw [a, b]
    · obtain ⟨a, b⟩ := LOG2F_eq_log (c := 6) (by decide) h.1 h.2; rw [a, b]
  · intro x hx
    have h6 : LOG2F x = 6 := by
      unfold LOG2F
      simp only [ge_iff_le]
      split_ifs <;> omega
    have h7 : 7 ≤ Nat.log 2 x := Nat.le_log_of_pow_le (by decide) (by norm_num; omega)
    rw [h6]
    omega

end NunchukQuakeSensor
